import Mathlib

/-!
Verification of the VeinMiner Endstone plugin core
(src/endstone_vein_miner/vein_miner_plugin.py).

This file gives a shallow embedding of the plugin's core algorithms:

* the flood-fill vein search (find_vein),
* the neighbor pattern builder (build_neighbor_offsets),
* the fortune drop computation (get_fortune_drop_amount),
* the tool durability model (apply_tool_durability),
* the per-player abuse/rate gate and the block-break handler
  (is_player_blocked, check_rate_limits, check_daily_limits,
  record_vein_usage, on_block_break),

and proves or refutes the specified properties about them.

Modelling conventions: block positions are integer triples; the world is a
partial map from positions to block type identifiers (None models a failed
fetch, i.e. an exception in the Python code); random draws are explicit
inputs (a uniform integer draw "random.randint lo hi" is modelled as
lo + r mod (hi - lo + 1) for a free natural r, and Bernoulli outcomes of
"random.random() < p" comparisons are free boolean inputs); the float
durability multiplier is modelled as a rational; clock reads are explicit
inputs, one per call of time.time in the source.
-/

/-- A block position: an integer triple. Identity is positional. -/
structure Pos where
  x : Int
  y : Int
  z : Int
deriving DecidableEq, Repr

/-- Squared Euclidean distance between two positions, as in find_vein. -/
def distSq (a b : Pos) : Int :=
  (b.x - a.x) * (b.x - a.x) + (b.y - a.y) * (b.y - a.y) + (b.z - a.z) * (b.z - a.z)

/-- Add an offset to a position. -/
def padd (p off : Pos) : Pos :=
  ⟨p.x + off.x, p.y + off.y, p.z + off.z⟩

/-- The world: a partial map from positions to block-type identifiers.
Option.none models a failed fetch (get_block_at raising or returning an
invalid block). -/
def World : Type := Pos → Option String

/-- Configuration consumed by find_vein. -/
structure VeinConfig where
  maxBlocks : Nat
  maxReachDistance : Int
  minWorldHeight : Int
  maxWorldHeight : Int
  neighbors : List Pos

/-- The world-height test applied to neighbor candidates in find_vein. -/
def heightOk (cfg : VeinConfig) (p : Pos) : Prop :=
  cfg.minWorldHeight ≤ p.y ∧ p.y ≤ cfg.maxWorldHeight

instance (cfg : VeinConfig) (p : Pos) : Decidable (heightOk cfg p) := by
  unfold heightOk; infer_instance

/-- One neighbor-expansion step of find_vein: given the accumulated
(queue, visited) pair and one offset, examine the neighbor position.
Transcribes the inner for-loop body of find_vein: skip when outside the
world height limits, skip when already visited, otherwise mark visited and
enqueue exactly when the fetched block type matches the start type (a
failed fetch is skipped). -/
def expandStep (world : World) (cfg : VeinConfig) (t : String) (cur : Pos)
    (acc : List Pos × Finset Pos) (off : Pos) : List Pos × Finset Pos :=
  if (padd cur off).y < cfg.minWorldHeight ∨ cfg.maxWorldHeight < (padd cur off).y then acc
  else if padd cur off ∈ acc.2 then acc
  else
    match world (padd cur off) with
    | some ty =>
      if ty = t then (acc.1 ++ [padd cur off], insert (padd cur off) acc.2)
      else (acc.1, insert (padd cur off) acc.2)
    | none => (acc.1, insert (padd cur off) acc.2)

/-- The BFS loop of find_vein. The fuel argument models the remaining
iteration budget: the Python loop increments an iteration counter at the
top of each pass and breaks once it exceeds max(100, max_blocks * 10), so
the body runs at most that many times. The loop also stops when the queue
empties or the vein has reached max_blocks, prunes dequeued positions
farther than the squared max reach distance, skips positions whose fetch
fails or whose type does not match, and stops immediately once the vein
reaches max_blocks after an insertion. -/
def findVeinLoop (world : World) (cfg : VeinConfig) (t : String) (start : Pos) :
    Nat → List Pos → Finset Pos → Finset Pos → Finset Pos
  | _, [], _, vein => vein
  | fuel, cur :: rest, visited, vein =>
    if vein.card < cfg.maxBlocks then
      match fuel with
      | 0 => vein
      | fuel' + 1 =>
        if cfg.maxReachDistance * cfg.maxReachDistance < distSq start cur then
          findVeinLoop world cfg t start fuel' rest visited vein
        else
          match world cur with
          | none => findVeinLoop world cfg t start fuel' rest visited vein
          | some ty =>
            if ty = t then
              let vein' := insert cur vein
              if cfg.maxBlocks ≤ vein'.card then vein'
              else
                let res := cfg.neighbors.foldl (expandStep world cfg t cur) (rest, visited)
                findVeinLoop world cfg t start fuel' res.1 res.2 vein'
            else findVeinLoop world cfg t start fuel' rest visited vein
    else vein

/-- The vein discovery search (find_vein): breadth-first flood fill from
the start position over same-type blocks. Returns the empty set when the
start block cannot be fetched. -/
def find_vein (world : World) (cfg : VeinConfig) (start : Pos) : Finset Pos :=
  match world start with
  | none => ∅
  | some t =>
    findVeinLoop world cfg t start (max 100 (cfg.maxBlocks * 10)) [start] {start} ∅

/-- One step of vein connectivity: q is a same-type, height-in-bounds
neighbor of p under the configured pattern. -/
def stepTo (world : World) (cfg : VeinConfig) (t : String) (p q : Pos) : Prop :=
  ∃ off ∈ cfg.neighbors, q = padd p off ∧ heightOk cfg q ∧ world q = some t

/-- Reachability from the start position through same-type, height-in-bounds
blocks under the configured neighbor pattern. -/
inductive Reaches (world : World) (cfg : VeinConfig) (t : String) (start : Pos) : Pos → Prop
  | refl : Reaches world cfg t start start
  | step {p q : Pos} : Reaches world cfg t start p → stepTo world cfg t p q →
      Reaches world cfg t start q

/-- A finite set of positions is closed under one vein-connectivity step. -/
def closedUnder (world : World) (cfg : VeinConfig) (t : String) (S : Finset Pos) : Prop :=
  ∀ p ∈ S, ∀ off ∈ cfg.neighbors,
    heightOk cfg (padd p off) → world (padd p off) = some t → padd p off ∈ S

instance (world : World) (cfg : VeinConfig) (t : String) (S : Finset Pos) :
    Decidable (closedUnder world cfg t S) := by
  unfold closedUnder; infer_instance

/-- Uniform integer draw: random.randint lo hi modelled on an underlying
free natural draw r, giving a value in the inclusive range lo..hi whenever
lo ≤ hi. -/
def randintV (lo hi : Int) (r : Nat) : Int :=
  lo + (r : Int) % (hi - lo + 1)

/-- Normalization of block identifiers (normalize_block_id): strip the
minecraft namespace and lowercase. -/
def normalizeBlockId (blockId : String) : String :=
  (blockId.replace "minecraft:" "").toLower

/-- Ore ids with a wide random base drop range of 4..9 (lapis). -/
def lapisIds : List String := ["lapis_ore", "deepslate_lapis_ore"]

/-- Ore ids with a random base drop range of 4..5 (redstone variants). -/
def redstoneIds : List String :=
  ["redstone_ore", "deepslate_redstone_ore", "lit_redstone_ore", "lit_deepslate_redstone_ore"]

/-- The fixed fortune-applicable block set of get_fortune_drop_amount. -/
def fortuneApplicableIds : List String :=
  ["coal_ore", "deepslate_coal_ore",
   "iron_ore", "deepslate_iron_ore",
   "copper_ore", "deepslate_copper_ore",
   "gold_ore", "deepslate_gold_ore",
   "redstone_ore", "deepslate_redstone_ore", "lit_redstone_ore", "lit_deepslate_redstone_ore",
   "lapis_ore", "deepslate_lapis_ore",
   "diamond_ore", "deepslate_diamond_ore",
   "emerald_ore", "deepslate_emerald_ore",
   "quartz_ore", "nether_quartz_ore",
   "nether_gold_ore"]

/-- Drop count computation of get_fortune_drop_amount. The two random
draws of the source (the base-count randint and the bonus-roll randint)
are modelled by the free natural inputs r1 and r2. -/
def get_fortune_drop_amount (blockId : String) (fortuneLevel : Int) (r1 r2 : Nat) : Int :=
  let shortId := normalizeBlockId blockId
  let baseCount : Int :=
    if shortId ∈ lapisIds then randintV 4 9 r1
    else if shortId ∈ redstoneIds then randintV 4 5 r1
    else if shortId = "nether_gold_ore" then randintV 2 6 r1
    else 1
  if fortuneLevel ≤ 0 ∨ shortId ∉ fortuneApplicableIds then
    max 1 baseCount
  else
    let bonusRoll := randintV (-1) fortuneLevel r2
    let bonusRoll := if bonusRoll < 0 then 0 else bonusRoll
    max 1 (baseCount * (bonusRoll + 1))

/-- Truncation toward zero, the semantics of Python int() on a number. -/
def intTrunc (q : Rat) : Int :=
  if q < 0 then -(⌊-q⌋) else ⌊q⌋

/-- Tool durability configuration consumed by apply_tool_durability. -/
structure DuraConfig where
  durabilityMultiplier : Rat
  respectUnbreaking : Bool
  breakOnExceed : Bool

/-- The tool descriptor fields read by apply_tool_durability. -/
structure ToolDesc where
  unbreakable : Bool
  maxDurability : Int
  damage : Int
  unbreakingLevel : Int
deriving DecidableEq, Repr

/-- Observable result of apply_tool_durability. -/
inductive DuraResult
  | noop
  | removed
  | damaged (newDamage : Int)
deriving DecidableEq, Repr

/-- Raw damage rolls: int(successful_breaks * multiplier) plus one extra
point when the stochastic-rounding Bernoulli draw succeeds. -/
def duraRawRolls (cfg : DuraConfig) (successfulBreaks : Nat) (fracRoll : Bool) : Int :=
  intTrunc ((successfulBreaks : Rat) * cfg.durabilityMultiplier) +
    (if fracRoll then 1 else 0)

/-- Effective damage rolls after optional unbreaking mitigation: when
unbreaking is respected and the tool has a positive unbreaking level, each
raw roll survives according to its Bernoulli outcome in the unbRolls
stream. -/
def duraEffRolls (cfg : DuraConfig) (t : ToolDesc) (successfulBreaks : Nat)
    (fracRoll : Bool) (unbRolls : Nat → Bool) : Int :=
  let r0 := duraRawRolls cfg successfulBreaks fracRoll
  if cfg.respectUnbreaking ∧ 0 < t.unbreakingLevel then
    (((List.range r0.toNat).filter fun i => unbRolls i).length : Int)
  else r0

/-- The tool durability model (apply_tool_durability). Bernoulli outcomes
of the source's random.random() comparisons are the explicit inputs
fracRoll and unbRolls. -/
def applyToolDurability (cfg : DuraConfig) (tool : Option ToolDesc) (successfulBreaks : Nat)
    (fracRoll : Bool) (unbRolls : Nat → Bool) : DuraResult :=
  match tool with
  | none => .noop
  | some t =>
    if successfulBreaks = 0 ∨ cfg.durabilityMultiplier ≤ 0 then .noop
    else if t.unbreakable then .noop
    else if t.maxDurability ≤ 0 then .noop
    else
      let rolls0 := duraRawRolls cfg successfulBreaks fracRoll
      if rolls0 ≤ 0 then .noop
      else
        let rolls1 := duraEffRolls cfg t successfulBreaks fracRoll unbRolls
        if rolls1 ≤ 0 then .noop
        else
          let newDamage := t.damage + rolls1
          if t.maxDurability ≤ newDamage then
            if cfg.breakOnExceed then .removed
            else .damaged (t.maxDurability - 1)
          else .damaged newDamage

/-- Mining pattern selector of the neighbor pattern builder. -/
inductive Pattern
  | adjacent
  | cube
  | sphere
  | vertical
  | horizontal
deriving DecidableEq, Repr

/-- The integer interval -r..r in ascending order, as produced by
range(-r, r + 1). -/
def rangeList (r : Nat) : List Int :=
  (List.range (2 * r + 1)).map fun (i : Nat) => (i : Int) - (r : Int)

/-- The uncapped offset list of build_neighbor_offsets: the nested loops
of the source for each pattern, before the 512-entry safety cap. -/
def buildNeighborOffsetsRaw (pat : Pattern) (radius vRange hRange : Nat)
    (includeDiagonals : Bool) : List Pos :=
  match pat with
  | .vertical =>
    (rangeList vRange).filterMap fun dy =>
      if dy = 0 then none else some ⟨0, dy, 0⟩
  | .horizontal =>
    (rangeList hRange).flatMap fun dx =>
      (rangeList hRange).filterMap fun dz =>
        if dx = 0 ∧ dz = 0 then none
        else if ¬includeDiagonals ∧ |dx| + |dz| ≠ 1 then none
        else some ⟨dx, 0, dz⟩
  | .cube =>
    (rangeList radius).flatMap fun dx =>
      (rangeList radius).flatMap fun dy =>
        (rangeList radius).filterMap fun dz =>
          if dx = 0 ∧ dy = 0 ∧ dz = 0 then none
          else some ⟨dx, dy, dz⟩
  | .sphere =>
    (rangeList radius).flatMap fun dx =>
      (rangeList radius).flatMap fun dy =>
        (rangeList radius).filterMap fun dz =>
          if dx = 0 ∧ dy = 0 ∧ dz = 0 then none
          else if dx * dx + dy * dy + dz * dz ≤ (radius : Int) * (radius : Int) then
            some ⟨dx, dy, dz⟩
          else none
  | .adjacent =>
    (rangeList 1).flatMap fun dx =>
      (rangeList 1).flatMap fun dy =>
        (rangeList 1).filterMap fun dz =>
          if dx = 0 ∧ dy = 0 ∧ dz = 0 then none
          else if ¬includeDiagonals ∧ |dx| + |dy| + |dz| ≠ 1 then none
          else some ⟨dx, dy, dz⟩

/-- The neighbor pattern builder (build_neighbor_offsets): the uncapped
per-pattern offset list, truncated to 512 entries when longer. -/
def buildNeighborOffsets (pat : Pattern) (radius vRange hRange : Nat)
    (includeDiagonals : Bool) : List Pos :=
  let offsets := buildNeighborOffsetsRaw pat radius vRange hRange includeDiagonals
  if 512 < offsets.length then offsets.take 512 else offsets

/-- The per-pattern membership rule as the specification states it: which
offsets the pattern is supposed to keep, before any cap. -/
def patternRulePred (pat : Pattern) (radius vRange hRange : Nat)
    (includeDiagonals : Bool) (p : Pos) : Prop :=
  match pat with
  | .vertical => p.x = 0 ∧ p.z = 0 ∧ p.y ≠ 0 ∧ -(vRange : Int) ≤ p.y ∧ p.y ≤ (vRange : Int)
  | .horizontal =>
    p.y = 0 ∧ ¬(p.x = 0 ∧ p.z = 0) ∧
    -(hRange : Int) ≤ p.x ∧ p.x ≤ (hRange : Int) ∧
    -(hRange : Int) ≤ p.z ∧ p.z ≤ (hRange : Int) ∧
    (¬includeDiagonals → |p.x| + |p.z| = 1)
  | .cube =>
    ¬(p.x = 0 ∧ p.y = 0 ∧ p.z = 0) ∧
    -(radius : Int) ≤ p.x ∧ p.x ≤ (radius : Int) ∧
    -(radius : Int) ≤ p.y ∧ p.y ≤ (radius : Int) ∧
    -(radius : Int) ≤ p.z ∧ p.z ≤ (radius : Int)
  | .sphere =>
    ¬(p.x = 0 ∧ p.y = 0 ∧ p.z = 0) ∧
    -(radius : Int) ≤ p.x ∧ p.x ≤ (radius : Int) ∧
    -(radius : Int) ≤ p.y ∧ p.y ≤ (radius : Int) ∧
    -(radius : Int) ≤ p.z ∧ p.z ≤ (radius : Int) ∧
    p.x * p.x + p.y * p.y + p.z * p.z ≤ (radius : Int) * (radius : Int)
  | .adjacent =>
    ¬(p.x = 0 ∧ p.y = 0 ∧ p.z = 0) ∧
    -1 ≤ p.x ∧ p.x ≤ 1 ∧ -1 ≤ p.y ∧ p.y ≤ 1 ∧ -1 ≤ p.z ∧ p.z ≤ 1 ∧
    (¬includeDiagonals → |p.x| + |p.y| + |p.z| = 1)

instance (pat : Pattern) (radius vRange hRange : Nat) (d : Bool) (p : Pos) :
    Decidable (patternRulePred pat radius vRange hRange d p) := by
  unfold patternRulePred
  cases pat <;> infer_instance

/-- Activation mode of the block-break handler. -/
inductive ActMode
  | sneak
  | stand
  | always
deriving DecidableEq, Repr

/-- The configuration fields consumed by the gate checks and the
block-break handler. -/
structure GateConfig where
  cooldownMs : Int
  maxVeinsPerMinute : Int
  temporaryBlockDuration : Int
  enableLimits : Bool
  maxVeinsPerDay : Int
  maxBlocksPerDay : Int
  minVeinSize : Nat
  maxBlocks : Nat
  requireCorrectTool : Bool
  perBlockPermissions : Bool
  activationMode : ActMode
deriving Repr

/-- The per-player engine state: the projection of the plugin's player-keyed
dictionaries onto one player. A missing last_vein_mine or
last_cooldown_message or last_error_message entry is the value 0, as in the
source's dict.get defaults; a missing blocked_players entry is none; a
missing minute_vein_count entry is the empty list; processing is membership
in the processing_vein set. -/
structure PlayerState where
  blockedUntil : Option Int
  minuteStamps : List Int
  lastVeinMine : Int
  processing : Bool
  dailyVeinCount : Int
  dailyBlockCount : Int
  lastCooldownMsg : Int
  lastErrorMsg : Int
deriving DecidableEq, Repr

/-- Per-invocation inputs of the block-break handler that come from the
host (clock reads, permissions, the event, the world and the collaborating
subsystems). Each nowN field is one time.time() * 1000 read, in source
order: now at the top of the handler, now2 in record_vein_usage, now3 for
the last-mine update, now4 in the error handler. veinSize abstracts the
size of the vein returned by find_vein, and successfulBreaks the count
returned by process_vein_mining. toolFetchThrows and statsThrows inject an
exception at the two external calls inside the try block (reading the main
hand item; recording statistics). -/
structure BreakEnv where
  now : Int
  now2 : Int
  now3 : Int
  now4 : Int
  preCancelled : Bool
  hasUsePermission : Bool
  toggledOff : Bool
  worldDisabled : Bool
  sneaking : Bool
  blockVeinable : Bool
  blockPermOk : Bool
  properTool : Bool
  veinSize : Nat
  successfulBreaks : Nat
  toolFetchThrows : Bool
  statsThrows : Bool
deriving DecidableEq, Repr

/-- Outcome classification of one block-break invocation. -/
inductive BreakOutcome
  | skippedCancelled
  | rejectedTempBlock
  | rejectedNoPermission
  | rejectedToggledOff
  | rejectedRateLimit
  | rejectedProcessing
  | rejectedCooldown
  | rejectedWorldDisabled
  | rejectedActivation
  | rejectedNotVeinable
  | rejectedBlockPermission
  | rejectedWrongTool
  | rejectedInvalidVein
  | rejectedSuspiciousSize
  | rejectedDailyLimit
  | belowMinSize
  | tooLargeSkipped
  | processed
  | errored
deriving DecidableEq, Repr

/-- Result of one block-break invocation: the outcome, the player state
after the call, and the externally observable effects (whether the break
event was cancelled, whether vein processing ran, whether usage and
statistics were recorded). -/
structure BreakResult where
  outcome : BreakOutcome
  state : PlayerState
  cancelled : Bool
  processCalled : Bool
  usageRecorded : Bool
  statsRecorded : Bool
deriving DecidableEq, Repr

/-- A rejection result: no effects, the given state. -/
def rejectResult (o : BreakOutcome) (s : PlayerState) : BreakResult :=
  ⟨o, s, false, false, false, false⟩

/-- Temporary-block check (is_player_blocked): blocked while the current
time is before the stored unblock time; an expired entry is deleted on the
check itself. Returns the blocked flag and the updated state. -/
def isPlayerBlocked (now : Int) (s : PlayerState) : Bool × PlayerState :=
  match s.blockedUntil with
  | none => (false, s)
  | some t =>
    if t ≤ now then (false, { s with blockedUntil := none })
    else (true, s)

/-- Escalation (block_player_temporarily): store an unblock time the
configured number of minutes in the future. -/
def blockPlayerTemporarily (cfg : GateConfig) (now : Int) (s : PlayerState) : PlayerState :=
  { s with blockedUntil := some (now + cfg.temporaryBlockDuration * 60 * 1000) }

/-- Rate-limit check (check_rate_limits): disabled when the configured
max-per-minute is not positive; otherwise prune stamps at least 60000 ms
old and fail when at least max-per-minute remain. Returns the ok flag and
the state with the pruned stamp list. -/
def checkRateLimits (cfg : GateConfig) (now : Int) (s : PlayerState) : Bool × PlayerState :=
  if cfg.maxVeinsPerMinute ≤ 0 then (true, s)
  else
    let pruned := s.minuteStamps.filter fun t => now - t < 60000
    let s1 := { s with minuteStamps := pruned }
    if cfg.maxVeinsPerMinute ≤ (pruned.length : Int) then (false, s1) else (true, s1)

/-- Daily-limit check (check_daily_limits): only active when limits are
enabled; fails when the daily vein count has reached max-per-day or the
daily block count plus the candidate size would exceed max-blocks-per-day. -/
def checkDailyLimits (cfg : GateConfig) (s : PlayerState) (blockCount : Int) : Bool :=
  if !cfg.enableLimits then true
  else if cfg.maxVeinsPerDay ≤ s.dailyVeinCount then false
  else if cfg.maxBlocksPerDay < s.dailyBlockCount + blockCount then false
  else true

/-- Usage recording (record_vein_usage): append the current time to the
rolling stamp list and, when limits are enabled, bump the daily counters. -/
def recordVeinUsage (cfg : GateConfig) (now : Int) (s : PlayerState) (blockCount : Int) :
    PlayerState :=
  let s1 := { s with minuteStamps := s.minuteStamps ++ [now] }
  if cfg.enableLimits then
    { s1 with dailyVeinCount := s1.dailyVeinCount + 1,
              dailyBlockCount := s1.dailyBlockCount + blockCount }
  else s1

/-- Activation-mode test of the handler. -/
def activationOk (cfg : GateConfig) (env : BreakEnv) : Bool :=
  match cfg.activationMode with
  | .always => true
  | .sneak => env.sneaking
  | .stand => !env.sneaking

/-- The except-branch of the handler: throttled error notice, updating the
last-error-message time at most once per 5000 ms. -/
def handleError (env : BreakEnv) (r : BreakResult) : BreakResult :=
  if 5000 < env.now4 - r.state.lastErrorMsg then
    { r with state := { r.state with lastErrorMsg := env.now4 } }
  else r

/-- The try-block body of the handler, from acquiring the tool through the
last-mine update: wrong-tool rejection, vein validation, minimum-size
gate, sanity bound of twice max-blocks, daily limits, the vein-too-large
path, processing with usage/statistics recording, and the two injected
exception points. -/
def tryBody (cfg : GateConfig) (env : BreakEnv) (s : PlayerState) : BreakResult :=
  if env.toolFetchThrows then handleError env (rejectResult .errored s)
  else if cfg.requireCorrectTool ∧ ¬env.properTool then rejectResult .rejectedWrongTool s
  else if env.veinSize = 0 then rejectResult .rejectedInvalidVein s
  else if cfg.minVeinSize ≤ env.veinSize then
    if 2 * cfg.maxBlocks < env.veinSize then rejectResult .rejectedSuspiciousSize s
    else if !checkDailyLimits cfg s (min env.veinSize cfg.maxBlocks : Nat) then
      rejectResult .rejectedDailyLimit s
    else if env.veinSize ≤ cfg.maxBlocks then
      if 0 < env.successfulBreaks then
        let s1 := recordVeinUsage cfg env.now2 s (env.successfulBreaks : Int)
        if env.statsThrows then
          handleError env ⟨.errored, s1, true, true, true, false⟩
        else
          let s2 := { s1 with lastVeinMine := env.now3 }
          ⟨.processed, s2, true, true, true, true⟩
      else
        let s2 := { s with lastVeinMine := env.now3 }
        ⟨.processed, s2, true, true, false, false⟩
    else
      let s2 := { s with lastVeinMine := env.now3 }
      ⟨.tooLargeSkipped, s2, false, false, false, false⟩
  else rejectResult .belowMinSize s

/-- The gate tail of on_block_break after the rate-limit check, taking
the state with the pruned stamp list: concurrency flag, cooldown with
throttled notice, disabled world, activation mode, vein-mineable block and
per-block permission checks, then the processing flag is set, the try body
runs, and the flag is cleared again on the way out. -/
def afterRateCheck (cfg : GateConfig) (env : BreakEnv) (s2 : PlayerState) : BreakResult :=
  if s2.processing then rejectResult .rejectedProcessing s2
  else if env.now - s2.lastVeinMine < cfg.cooldownMs then
    let s3 :=
      if 1000 < env.now - s2.lastCooldownMsg then
        { s2 with lastCooldownMsg := env.now }
      else s2
    rejectResult .rejectedCooldown s3
  else if env.worldDisabled then rejectResult .rejectedWorldDisabled s2
  else if ¬activationOk cfg env then rejectResult .rejectedActivation s2
  else if ¬env.blockVeinable then rejectResult .rejectedNotVeinable s2
  else if cfg.perBlockPermissions ∧ ¬env.blockPermOk then
    rejectResult .rejectedBlockPermission s2
  else
    let s3 := { s2 with processing := true }
    let r := tryBody cfg env s3
    { r with state := { r.state with processing := false } }

/-- The gate segment of on_block_break after the temporary-block check:
use permission and player-toggle checks, then the rate-limit check with
its escalation to a temporary block on failure. -/
def afterBlockCheck (cfg : GateConfig) (env : BreakEnv) (s1 : PlayerState) : BreakResult :=
  if ¬env.hasUsePermission then rejectResult .rejectedNoPermission s1
  else if env.toggledOff then rejectResult .rejectedToggledOff s1
  else
    let rl := checkRateLimits cfg env.now s1
    if ¬rl.1 then rejectResult .rejectedRateLimit (blockPlayerTemporarily cfg env.now rl.2)
    else afterRateCheck cfg env rl.2

/-- The block-break handler (on_block_break): the pre-acquisition gate
chain in source order (event already cancelled, temporary block, use
permission, player toggle, rate limit with escalation, concurrency flag,
cooldown with throttled notice, disabled world, activation mode,
vein-mineable block, per-block permission), then the processing flag is
set, the try body runs, and the flag is cleared again on the way out. -/
def onBlockBreak (cfg : GateConfig) (env : BreakEnv) (s : PlayerState) : BreakResult :=
  if env.preCancelled then rejectResult .skippedCancelled s
  else
    let bt := isPlayerBlocked env.now s
    if bt.1 then rejectResult .rejectedTempBlock bt.2
    else afterBlockCheck cfg env bt.2

/-- The five gate checks named by the specification. -/
inductive GateCheck
  | tempBlock
  | cooldown
  | concurrency
  | rateLimit
  | dailyLimit
deriving DecidableEq, Repr

/-- Whether each named gate condition holds of the pre-invocation state.
All five are phrased against the initial state, which is sound because no
earlier check in either order mutates the fields a later predicate reads. -/
def gateConditionActive (cfg : GateConfig) (env : BreakEnv) (s : PlayerState) :
    GateCheck → Bool
  | .tempBlock =>
    match s.blockedUntil with
    | some t => decide (env.now < t)
    | none => false
  | .cooldown => decide (env.now - s.lastVeinMine < cfg.cooldownMs)
  | .concurrency => s.processing
  | .rateLimit =>
    decide (0 < cfg.maxVeinsPerMinute ∧
      cfg.maxVeinsPerMinute ≤ ((s.minuteStamps.filter fun t => env.now - t < 60000).length : Int))
  | .dailyLimit => !checkDailyLimits cfg s ((min env.veinSize cfg.maxBlocks : Nat) : Int)

/-- First failing named check in the order the code evaluates them:
temporary block, rate limit, concurrency, cooldown, daily limit. -/
def codeFirstReject (cfg : GateConfig) (env : BreakEnv) (s : PlayerState) : Option GateCheck :=
  if gateConditionActive cfg env s .tempBlock then some .tempBlock
  else if gateConditionActive cfg env s .rateLimit then some .rateLimit
  else if gateConditionActive cfg env s .concurrency then some .concurrency
  else if gateConditionActive cfg env s .cooldown then some .cooldown
  else if gateConditionActive cfg env s .dailyLimit then some .dailyLimit
  else none

/-- First failing named check in the order the specification claims:
temporary block, cooldown, concurrency, rate limit, daily limit. -/
def claimedFirstReject (cfg : GateConfig) (env : BreakEnv) (s : PlayerState) : Option GateCheck :=
  if gateConditionActive cfg env s .tempBlock then some .tempBlock
  else if gateConditionActive cfg env s .cooldown then some .cooldown
  else if gateConditionActive cfg env s .concurrency then some .concurrency
  else if gateConditionActive cfg env s .rateLimit then some .rateLimit
  else if gateConditionActive cfg env s .dailyLimit then some .dailyLimit
  else none

/-- Map an invocation outcome to the named gate check that rejected it,
when one did. -/
def outcomeCheck : BreakOutcome → Option GateCheck
  | .rejectedTempBlock => some .tempBlock
  | .rejectedCooldown => some .cooldown
  | .rejectedProcessing => some .concurrency
  | .rejectedRateLimit => some .rateLimit
  | .rejectedDailyLimit => some .dailyLimit
  | _ => none

/-- Whether an outcome can only arise after the processing flag was
acquired (every outcome produced inside the try block). -/
def isBodyOutcome : BreakOutcome → Bool
  | .rejectedWrongTool => true
  | .rejectedInvalidVein => true
  | .rejectedSuspiciousSize => true
  | .rejectedDailyLimit => true
  | .belowMinSize => true
  | .tooLargeSkipped => true
  | .processed => true
  | .errored => true
  | _ => false

/-- Claim-side base count table: most blocks 1, wider random ranges for
lapis, redstone and nether gold ores, as the specification words it. -/
def claimBaseCount (shortId : String) (r1 : Nat) : Int :=
  if shortId ∈ lapisIds then randintV 4 9 r1
  else if shortId ∈ redstoneIds then randintV 4 5 r1
  else if shortId = "nether_gold_ore" then randintV 2 6 r1
  else 1

/-- Claim-side drop count formula: base count times bonusRoll plus one,
with bonusRoll the nonnegative part of a uniform draw from -1 to the
fortune level, applied only for fortune-applicable blocks at positive
fortune level; result floored at 1. -/
def fortuneDropSpec (blockId : String) (fortuneLevel : Int) (r1 r2 : Nat) : Int :=
  let shortId := normalizeBlockId blockId
  let base := claimBaseCount shortId r1
  if shortId ∈ fortuneApplicableIds ∧ 0 < fortuneLevel then
    max 1 (base * (max 0 (randintV (-1) fortuneLevel r2) + 1))
  else max 1 base

/-- C6: for every non-leaf block without silk touch, the drop count equals
the claimed fortune formula (base count times bonus roll plus one for
fortune-applicable blocks at positive fortune level, plain base count
otherwise, floored at 1), and the result is always at least 1. -/
theorem get_fortune_drop_amount_correct (blockId : String) (fortuneLevel : Int) (r1 r2 : Nat) :
    get_fortune_drop_amount blockId fortuneLevel r1 r2 =
      fortuneDropSpec blockId fortuneLevel r1 r2 ∧
    1 ≤ get_fortune_drop_amount blockId fortuneLevel r1 r2 := by
  have hmax : ∀ x : Int, (if x < 0 then 0 else x) = max 0 x := by
    intro x
    rcases lt_or_le x 0 with h | h
    · simp [h, max_eq_left h.le]
    · simp [not_lt.mpr h, max_eq_right h]
  unfold get_fortune_drop_amount fortuneDropSpec claimBaseCount
  constructor
  · by_cases hm : normalizeBlockId blockId ∈ fortuneApplicableIds
    · by_cases hf : 0 < fortuneLevel
      · have hf' : ¬fortuneLevel ≤ 0 := not_le.mpr hf
        simp [hm, hf, hf', hmax]
      · have hf' : fortuneLevel ≤ 0 := not_lt.mp hf
        simp [hm, hf, hf']
    · simp [hm]
  · by_cases hc : fortuneLevel ≤ 0 ∨ normalizeBlockId blockId ∉ fortuneApplicableIds <;>
      simp [hc, le_max_left]

/-- C7: the tool durability model is a no-op when the tool is absent, no
breaks succeeded, the wear multiplier is nonpositive, the tool is
unbreakable or it has no positive max durability; and when the cumulative
damage would reach or exceed max durability the tool is removed if
break-on-exceed is enabled and otherwise the damage is clamped to max
durability minus one, leaving 1 durability. -/
theorem apply_tool_durability_policy (cfg : DuraConfig) (tool : Option ToolDesc)
    (breaks : Nat) (fracRoll : Bool) (unbRolls : Nat → Bool) :
    ((tool = none ∨ breaks = 0 ∨ cfg.durabilityMultiplier ≤ 0 ∨
        (∃ t, tool = some t ∧ (t.unbreakable = true ∨ t.maxDurability ≤ 0))) →
      applyToolDurability cfg tool breaks fracRoll unbRolls = .noop) ∧
    (∀ t, tool = some t → t.unbreakable = false → 0 < t.maxDurability →
      breaks ≠ 0 → ¬cfg.durabilityMultiplier ≤ 0 →
      0 < duraRawRolls cfg breaks fracRoll →
      0 < duraEffRolls cfg t breaks fracRoll unbRolls →
      t.maxDurability ≤ t.damage + duraEffRolls cfg t breaks fracRoll unbRolls →
      applyToolDurability cfg tool breaks fracRoll unbRolls =
        (if cfg.breakOnExceed then .removed else .damaged (t.maxDurability - 1))) := by
  constructor
  · rintro (rfl | hb | hmul | ⟨t, rfl, ht⟩)
    · rfl
    · unfold applyToolDurability
      cases tool with
      | none => rfl
      | some t => simp [hb]
    · unfold applyToolDurability
      cases tool with
      | none => rfl
      | some t => simp [hmul]
    · unfold applyToolDurability
      rcases ht with h1 | h2
      · by_cases h0 : breaks = 0 ∨ cfg.durabilityMultiplier ≤ 0 <;> simp [h0, h1]
      · by_cases h0 : breaks = 0 ∨ cfg.durabilityMultiplier ≤ 0
        · simp [h0]
        · by_cases h1 : t.unbreakable <;> simp [h0, h1, h2]
  · rintro t rfl hunb hmax hb hmul hraw heff hexceed
    have h1 : ¬(breaks = 0 ∨ cfg.durabilityMultiplier ≤ 0) := by tauto
    simp only [applyToolDurability]
    split_ifs <;> first
      | rfl
      | omega
      | tauto
      | simp_all

/-- Witness for C7 at a concrete input: a pickaxe with 10 of 11 durability
used, 6 successful breaks, multiplier 1, no unbreaking, break-on-exceed
disabled; all hypotheses hold and the damage clamps to max durability
minus one. -/
theorem apply_tool_durability_policy_witness :
    applyToolDurability ⟨1, true, false⟩ (some ⟨false, 11, 10, 0⟩) 6 false (fun _ => true) =
      (if (false : Bool) then .removed else .damaged ((11 : Int) - 1)) :=
  (apply_tool_durability_policy ⟨1, true, false⟩ (some ⟨false, 11, 10, 0⟩) 6 false
      (fun _ => true)).2 ⟨false, 11, 10, 0⟩ rfl rfl (by norm_num) (by norm_num) (by norm_num)
    (by norm_num [duraRawRolls, intTrunc]) (by norm_num [duraEffRolls, duraRawRolls, intTrunc])
    (by norm_num [duraEffRolls, duraRawRolls, intTrunc])

/-- C9: with a stored temporary-block timestamp, the blocked check reports
blocked exactly while the current time is strictly before the stored
unblock time, and as soon as the time reaches it the same check reports
not blocked and deletes the entry, with no other call needed. -/
theorem is_player_blocked_iff (now t : Int) (s : PlayerState)
    (h : s.blockedUntil = some t) :
    (isPlayerBlocked now s).1 = decide (now < t) ∧
    (t ≤ now → (isPlayerBlocked now s).2.blockedUntil = none) := by
  unfold isPlayerBlocked
  rw [h]
  constructor
  · by_cases h1 : t ≤ now
    · simp [h1, not_lt.mpr h1]
    · simp [h1, not_le.mp h1]
  · intro h2
    simp [h2]

/-- Witness for C9 at a concrete input: unblock time 10, current time 5
(still blocked) and the expiry direction vacuous at this time. -/
theorem is_player_blocked_iff_witness :
    (isPlayerBlocked 5 ⟨some 10, [], 0, false, 0, 0, 0, 0⟩).1 = decide ((5 : Int) < 10) ∧
    ((10 : Int) ≤ 5 → (isPlayerBlocked 5 ⟨some 10, [], 0, false, 0, 0, 0, 0⟩).2.blockedUntil = none) :=
  is_player_blocked_iff 5 10 ⟨some 10, [], 0, false, 0, 0, 0, 0⟩ rfl

theorem isPlayerBlocked_fst_gate (cfg : GateConfig) (env : BreakEnv) (s : PlayerState) :
    (isPlayerBlocked env.now s).1 = gateConditionActive cfg env s .tempBlock := by
  unfold isPlayerBlocked gateConditionActive
  cases s.blockedUntil with
  | none => rfl
  | some t =>
    by_cases h1 : t ≤ env.now
    · simp [h1, not_lt.mpr h1]
    · simp [h1, not_le.mp h1]

theorem isPlayerBlocked_snd_fields (now : Int) (s : PlayerState) :
    ((isPlayerBlocked now s).2.minuteStamps = s.minuteStamps ∧
     (isPlayerBlocked now s).2.lastVeinMine = s.lastVeinMine ∧
     (isPlayerBlocked now s).2.processing = s.processing ∧
     (isPlayerBlocked now s).2.dailyVeinCount = s.dailyVeinCount ∧
     (isPlayerBlocked now s).2.dailyBlockCount = s.dailyBlockCount ∧
     (isPlayerBlocked now s).2.lastCooldownMsg = s.lastCooldownMsg ∧
     (isPlayerBlocked now s).2.lastErrorMsg = s.lastErrorMsg) ∧
    ((isPlayerBlocked now s).2.blockedUntil = s.blockedUntil ∨
     (isPlayerBlocked now s).2.blockedUntil = none) := by
  unfold isPlayerBlocked
  rcases h : s.blockedUntil with _ | t
  · simp [h]
  · by_cases h1 : t ≤ now <;> simp [h, h1]

theorem checkRateLimits_fst_gate (cfg : GateConfig) (env : BreakEnv) (s s1 : PlayerState)
    (h : s1.minuteStamps = s.minuteStamps) :
    (checkRateLimits cfg env.now s1).1 = !(gateConditionActive cfg env s .rateLimit) := by
  unfold checkRateLimits gateConditionActive
  rw [h]
  by_cases h0 : cfg.maxVeinsPerMinute ≤ 0
  · simp [h0, not_lt.mpr h0]
  · have h0' := not_le.mp h0
    by_cases h2 : cfg.maxVeinsPerMinute ≤
        (((s.minuteStamps.filter fun t => env.now - t < 60000).length : Int)) <;>
      simp [h0, h0', h2]

theorem checkRateLimits_snd_fields (cfg : GateConfig) (now : Int) (s : PlayerState) :
    ((checkRateLimits cfg now s).2.blockedUntil = s.blockedUntil ∧
     (checkRateLimits cfg now s).2.lastVeinMine = s.lastVeinMine ∧
     (checkRateLimits cfg now s).2.processing = s.processing ∧
     (checkRateLimits cfg now s).2.dailyVeinCount = s.dailyVeinCount ∧
     (checkRateLimits cfg now s).2.dailyBlockCount = s.dailyBlockCount ∧
     (checkRateLimits cfg now s).2.lastCooldownMsg = s.lastCooldownMsg ∧
     (checkRateLimits cfg now s).2.lastErrorMsg = s.lastErrorMsg) ∧
    ((checkRateLimits cfg now s).2.minuteStamps = s.minuteStamps ∨
     (checkRateLimits cfg now s).2.minuteStamps = s.minuteStamps.filter fun t => now - t < 60000) := by
  unfold checkRateLimits
  by_cases h0 : cfg.maxVeinsPerMinute ≤ 0
  · simp [h0]
  · by_cases h2 : cfg.maxVeinsPerMinute ≤
        ((s.minuteStamps.filter fun t => now - t < 60000).length : Int) <;>
      simp [h0, h2]

theorem checkDailyLimits_congr (cfg : GateConfig) (s1 s2 : PlayerState)
    (h1 : s1.dailyVeinCount = s2.dailyVeinCount) (h2 : s1.dailyBlockCount = s2.dailyBlockCount)
    (n : Int) : checkDailyLimits cfg s1 n = checkDailyLimits cfg s2 n := by
  unfold checkDailyLimits
  rw [h1, h2]

theorem handleError_outcome (env : BreakEnv) (r : BreakResult) :
    (handleError env r).outcome = r.outcome := by
  unfold handleError
  split_ifs <;> rfl

theorem tryBody_outcomeCheck (cfg : GateConfig) (env : BreakEnv) (s3 s : PlayerState)
    (hdv : s3.dailyVeinCount = s.dailyVeinCount)
    (hdb : s3.dailyBlockCount = s.dailyBlockCount)
    (htf : env.toolFetchThrows = false)
    (htool : ¬(cfg.requireCorrectTool ∧ ¬env.properTool))
    (hnz : env.veinSize ≠ 0)
    (hmin : cfg.minVeinSize ≤ env.veinSize)
    (hsan : env.veinSize ≤ 2 * cfg.maxBlocks) :
    outcomeCheck (tryBody cfg env s3).outcome =
      (if gateConditionActive cfg env s .dailyLimit then some .dailyLimit else none) := by
  have hdc : checkDailyLimits cfg s3 ((min env.veinSize cfg.maxBlocks : Nat) : Int) =
      checkDailyLimits cfg s ((min env.veinSize cfg.maxBlocks : Nat) : Int) :=
    checkDailyLimits_congr cfg s3 s hdv hdb _
  unfold tryBody gateConditionActive
  rw [if_neg (by simp [htf]), if_neg (by exact htool), if_neg (by exact hnz),
    if_pos hmin, if_neg (by omega), hdc]
  cases hX : checkDailyLimits cfg s ((min env.veinSize cfg.maxBlocks : Nat) : Int) with
  | false =>
    rw [if_pos (by decide)]
    rfl
  | true =>
    rw [if_neg (by decide)]
    split_ifs <;> simp_all [outcomeCheck, handleError_outcome, rejectResult]

theorem gateActive_tempBlock (cfg : GateConfig) (env : BreakEnv) (s : PlayerState) :
    gateConditionActive cfg env s .tempBlock =
      (match s.blockedUntil with
       | some t => decide (env.now < t)
       | none => false) := rfl

theorem gateActive_concurrency (cfg : GateConfig) (env : BreakEnv) (s : PlayerState) :
    gateConditionActive cfg env s .concurrency = s.processing := rfl

theorem gateActive_cooldown (cfg : GateConfig) (env : BreakEnv) (s : PlayerState) :
    gateConditionActive cfg env s .cooldown =
      decide (env.now - s.lastVeinMine < cfg.cooldownMs) := rfl

theorem gateActive_rateLimit (cfg : GateConfig) (env : BreakEnv) (s : PlayerState) :
    gateConditionActive cfg env s .rateLimit =
      decide (0 < cfg.maxVeinsPerMinute ∧
        cfg.maxVeinsPerMinute ≤
          ((s.minuteStamps.filter fun t => env.now - t < 60000).length : Int)) := rfl

theorem gateActive_dailyLimit (cfg : GateConfig) (env : BreakEnv) (s : PlayerState) :
    gateConditionActive cfg env s .dailyLimit =
      !checkDailyLimits cfg s ((min env.veinSize cfg.maxBlocks : Nat) : Int) := rfl

theorem afterRateCheck_outcomeCheck (cfg : GateConfig) (env : BreakEnv) (s2 s : PlayerState)
    (hpr : s2.processing = s.processing)
    (hlvm : s2.lastVeinMine = s.lastVeinMine)
    (hdv : s2.dailyVeinCount = s.dailyVeinCount)
    (hdb : s2.dailyBlockCount = s.dailyBlockCount)
    (hwd : env.worldDisabled = false)
    (hact : activationOk cfg env = true)
    (hbv : env.blockVeinable = true)
    (hbp : ¬(cfg.perBlockPermissions ∧ ¬env.blockPermOk))
    (htf : env.toolFetchThrows = false)
    (htool : ¬(cfg.requireCorrectTool ∧ ¬env.properTool))
    (hnz : env.veinSize ≠ 0)
    (hmin : cfg.minVeinSize ≤ env.veinSize)
    (hsan : env.veinSize ≤ 2 * cfg.maxBlocks) :
    outcomeCheck (afterRateCheck cfg env s2).outcome =
      (if gateConditionActive cfg env s .concurrency then some .concurrency
       else if gateConditionActive cfg env s .cooldown then some .cooldown
       else if gateConditionActive cfg env s .dailyLimit then some .dailyLimit
       else none) := by
  unfold afterRateCheck
  rw [gateActive_concurrency, gateActive_cooldown, gateActive_dailyLimit]
  cases hP : s2.processing with
  | true =>
    rw [← hpr]
    simp [outcomeCheck, rejectResult, hP]
  | false =>
    rw [← hpr]
    simp only [hP, Bool.false_eq_true, if_false]
    rw [← hlvm]
    by_cases hC : env.now - s2.lastVeinMine < cfg.cooldownMs
    · rw [if_pos hC]
      simp [outcomeCheck, rejectResult, hC]
    · rw [if_neg hC]
      have hwd' : ¬(env.worldDisabled = true) := by simp [hwd]
      have hact' : ¬¬(activationOk cfg env = true) := by simp [hact]
      have hbv' : ¬¬(env.blockVeinable = true) := by simp [hbv]
      rw [if_neg hwd', if_neg hact', if_neg hbv', if_neg hbp,
        if_neg (show ¬(decide (env.now - s2.lastVeinMine < cfg.cooldownMs) = true) by simp [hC])]
      have h2 := tryBody_outcomeCheck cfg env { s2 with processing := true } s
        (by simpa using hdv) (by simpa using hdb) htf htool hnz hmin hsan
      rw [gateActive_dailyLimit] at h2
      exact h2

/-- C1 (amended): the per-player gate checks are evaluated in the order
temporary block, then rate limit, then concurrency, then cooldown, then
daily limit, each rejecting check a hard stop: when the auxiliary checks
(permission, toggle, world, activation, vein block, block permission,
tool) pass, the invocation outcome names exactly the first failing check
in that order. -/
theorem gate_check_order (cfg : GateConfig) (env : BreakEnv) (s : PlayerState)
    (hpc : env.preCancelled = false)
    (hperm : env.hasUsePermission = true)
    (htog : env.toggledOff = false)
    (hwd : env.worldDisabled = false)
    (hact : activationOk cfg env = true)
    (hbv : env.blockVeinable = true)
    (hbp : ¬(cfg.perBlockPermissions ∧ ¬env.blockPermOk))
    (htf : env.toolFetchThrows = false)
    (htool : ¬(cfg.requireCorrectTool ∧ ¬env.properTool))
    (hnz : env.veinSize ≠ 0)
    (hmin : cfg.minVeinSize ≤ env.veinSize)
    (hsan : env.veinSize ≤ 2 * cfg.maxBlocks) :
    outcomeCheck (onBlockBreak cfg env s).outcome = codeFirstReject cfg env s := by
  unfold onBlockBreak codeFirstReject
  rw [if_neg (show ¬(env.preCancelled = true) by simp [hpc])]
  obtain ⟨⟨hms, hlvm, hpr, hdv, hdb, hlcm, hlem⟩, hbu⟩ := isPlayerBlocked_snd_fields env.now s
  cases hB : (isPlayerBlocked env.now s).1 with
  | true =>
    have hTB : gateConditionActive cfg env s .tempBlock = true := by
      rw [← isPlayerBlocked_fst_gate cfg env s]; exact hB
    simp [outcomeCheck, rejectResult, hTB, hB]
  | false =>
    have hTB : gateConditionActive cfg env s .tempBlock = false := by
      rw [← isPlayerBlocked_fst_gate cfg env s]; exact hB
    simp only [hB, Bool.false_eq_true, if_false, hTB]
    unfold afterBlockCheck
    rw [if_neg (show ¬¬(env.hasUsePermission = true) by simp [hperm]),
        if_neg (show ¬(env.toggledOff = true) by simp [htog])]
    have hrf := checkRateLimits_fst_gate cfg env s (isPlayerBlocked env.now s).2 hms
    obtain ⟨⟨hbu2, hlvm2, hpr2, hdv2, hdb2, hlcm2, hlem2⟩, hms2⟩ :=
      checkRateLimits_snd_fields cfg env.now (isPlayerBlocked env.now s).2
    cases hR : gateConditionActive cfg env s .rateLimit with
    | true =>
      have h1 : (checkRateLimits cfg env.now (isPlayerBlocked env.now s).2).1 = false := by
        rw [hrf, hR]; rfl
      rw [if_pos (show ¬((checkRateLimits cfg env.now (isPlayerBlocked env.now s).2).1 = true)
        by simp [h1])]
      simp [outcomeCheck, rejectResult, hR]
    | false =>
      have h1 : (checkRateLimits cfg env.now (isPlayerBlocked env.now s).2).1 = true := by
        rw [hrf, hR]; rfl
      rw [if_neg (show ¬¬((checkRateLimits cfg env.now (isPlayerBlocked env.now s).2).1 = true)
        by simp [h1])]
      have h2 := afterRateCheck_outcomeCheck cfg env
        (checkRateLimits cfg env.now (isPlayerBlocked env.now s).2).2 s
        (hpr2.trans hpr) (hlvm2.trans hlvm) (hdv2.trans hdv) (hdb2.trans hdb)
        hwd hact hbv hbp htf htool hnz hmin hsan
      rw [h2]
      simp [hR]

theorem handleError_blockedUntil (env : BreakEnv) (r : BreakResult) :
    (handleError env r).state.blockedUntil = r.state.blockedUntil := by
  unfold handleError
  split_ifs <;> rfl

theorem recordVeinUsage_blockedUntil (cfg : GateConfig) (now : Int) (s : PlayerState)
    (bc : Int) : (recordVeinUsage cfg now s bc).blockedUntil = s.blockedUntil := by
  unfold recordVeinUsage
  split_ifs <;> rfl

theorem tryBody_blockedUntil (cfg : GateConfig) (env : BreakEnv) (s3 : PlayerState) :
    (tryBody cfg env s3).state.blockedUntil = s3.blockedUntil := by
  unfold tryBody
  split_ifs <;>
    simp only [rejectResult, handleError_blockedUntil, recordVeinUsage_blockedUntil]

theorem afterRateCheck_blockedUntil (cfg : GateConfig) (env : BreakEnv) (s2 : PlayerState) :
    (afterRateCheck cfg env s2).state.blockedUntil = s2.blockedUntil := by
  unfold afterRateCheck
  split_ifs <;> simp only [rejectResult, tryBody_blockedUntil]

theorem afterRateCheck_flag (cfg : GateConfig) (env : BreakEnv) (s2 : PlayerState) :
    isBodyOutcome (afterRateCheck cfg env s2).outcome = true →
    (afterRateCheck cfg env s2).state.processing = false := by
  unfold afterRateCheck
  split_ifs <;> intro h <;> simp_all [rejectResult, isBodyOutcome]

theorem afterBlockCheck_flag (cfg : GateConfig) (env : BreakEnv) (s1 : PlayerState) :
    isBodyOutcome (afterBlockCheck cfg env s1).outcome = true →
    (afterBlockCheck cfg env s1).state.processing = false := by
  unfold afterBlockCheck
  intro h
  by_cases h1 : ¬env.hasUsePermission = true
  · rw [if_pos h1] at h; simp [rejectResult, isBodyOutcome] at h
  · rw [if_neg h1] at h ⊢
    by_cases h2 : env.toggledOff = true
    · rw [if_pos h2] at h; simp [rejectResult, isBodyOutcome] at h
    · rw [if_neg h2] at h ⊢
      by_cases h3 : ¬(checkRateLimits cfg env.now s1).1 = true
      · simp only [if_pos h3] at h; simp [rejectResult, isBodyOutcome] at h
      · simp only [if_neg h3] at h ⊢
        exact afterRateCheck_flag cfg env _ h

/-- C5: every invocation that sets the currently-processing flag (that is,
whose outcome arises inside the try block: success, any rejection after
acquisition, or an internal exception) has the flag cleared again in the
returned state. -/
theorem processing_flag_released (cfg : GateConfig) (env : BreakEnv) (s : PlayerState) :
    isBodyOutcome (onBlockBreak cfg env s).outcome = true →
    (onBlockBreak cfg env s).state.processing = false := by
  intro h
  simp only [onBlockBreak] at h ⊢
  by_cases hpc : env.preCancelled = true
  · rw [if_pos hpc] at h; simp [rejectResult, isBodyOutcome] at h
  · rw [if_neg hpc] at h ⊢
    by_cases hB : (isPlayerBlocked env.now s).1 = true
    · rw [if_pos hB] at h; simp [rejectResult, isBodyOutcome] at h
    · rw [if_neg hB] at h ⊢
      exact afterBlockCheck_flag cfg env _ h

/-- C4 (amended): when the gate reaches the rate-limit check with a
positive configured max-per-minute and at least that many stamps inside
the 60000 ms window, the invocation is rejected and the temporary block is
set to now plus the configured minutes; and no outcome other than a
rate-limit rejection ever stores a temporary block (the handler otherwise
leaves the stored value alone or deletes an expired one). -/
theorem rate_limit_escalation (cfg : GateConfig) (env : BreakEnv) (s : PlayerState) :
    ((env.preCancelled = false ∧ env.hasUsePermission = true ∧ env.toggledOff = false ∧
      gateConditionActive cfg env s .tempBlock = false ∧
      gateConditionActive cfg env s .rateLimit = true) →
      (onBlockBreak cfg env s).outcome = .rejectedRateLimit ∧
      (onBlockBreak cfg env s).state.blockedUntil =
        some (env.now + cfg.temporaryBlockDuration * 60 * 1000)) ∧
    ((onBlockBreak cfg env s).outcome ≠ .rejectedRateLimit →
      (onBlockBreak cfg env s).state.blockedUntil = s.blockedUntil ∨
      (onBlockBreak cfg env s).state.blockedUntil = none) := by
  obtain ⟨⟨hms, _, _, _, _, _, _⟩, hbu⟩ := isPlayerBlocked_snd_fields env.now s
  obtain ⟨⟨hbu2, _, _, _, _, _, _⟩, _⟩ :=
    checkRateLimits_snd_fields cfg env.now (isPlayerBlocked env.now s).2
  constructor
  · rintro ⟨hpc, hperm, htog, hTB, hR⟩
    have hB : (isPlayerBlocked env.now s).1 = false := by
      rw [isPlayerBlocked_fst_gate cfg env s]; exact hTB
    have h1 : (checkRateLimits cfg env.now (isPlayerBlocked env.now s).2).1 = false := by
      rw [checkRateLimits_fst_gate cfg env s _ hms, hR]; rfl
    unfold onBlockBreak afterBlockCheck
    rw [if_neg (show ¬(env.preCancelled = true) by simp [hpc]),
      if_neg (show ¬((isPlayerBlocked env.now s).1 = true) by simp [hB]),
      if_neg (show ¬¬(env.hasUsePermission = true) by simp [hperm]),
      if_neg (show ¬(env.toggledOff = true) by simp [htog]),
      if_pos (show ¬((checkRateLimits cfg env.now (isPlayerBlocked env.now s).2).1 = true)
        by simp [h1])]
    exact ⟨rfl, rfl⟩
  · intro hne
    simp only [onBlockBreak] at hne ⊢
    by_cases hpc : env.preCancelled = true
    · rw [if_pos hpc] at hne ⊢
      left; rfl
    · rw [if_neg hpc] at hne ⊢
      by_cases hB : (isPlayerBlocked env.now s).1 = true
      · rw [if_pos hB] at hne ⊢
        simpa only [rejectResult] using hbu
      · rw [if_neg hB] at hne ⊢
        simp only [afterBlockCheck] at hne ⊢
        by_cases h1 : ¬env.hasUsePermission = true
        · rw [if_pos h1] at hne ⊢
          simpa only [rejectResult] using hbu
        · rw [if_neg h1] at hne ⊢
          by_cases h2 : env.toggledOff = true
          · rw [if_pos h2] at hne ⊢
            simpa only [rejectResult] using hbu
          · rw [if_neg h2] at hne ⊢
            by_cases h3 : ¬(checkRateLimits cfg env.now (isPlayerBlocked env.now s).2).1 = true
            · rw [if_pos h3] at hne
              exact absurd rfl hne
            · rw [if_neg h3] at hne ⊢
              rw [afterRateCheck_blockedUntil, hbu2]
              exact hbu

theorem onBlockBreak_pass (cfg : GateConfig) (env : BreakEnv) (s : PlayerState)
    (hpc : env.preCancelled = false)
    (hperm : env.hasUsePermission = true)
    (htog : env.toggledOff = false)
    (hTB : gateConditionActive cfg env s .tempBlock = false)
    (hRL : gateConditionActive cfg env s .rateLimit = false)
    (hPR : s.processing = false)
    (hCD : gateConditionActive cfg env s .cooldown = false)
    (hwd : env.worldDisabled = false)
    (hact : activationOk cfg env = true)
    (hbv : env.blockVeinable = true)
    (hbp : ¬(cfg.perBlockPermissions ∧ ¬env.blockPermOk)) :
    onBlockBreak cfg env s =
      { tryBody cfg env
          { (checkRateLimits cfg env.now (isPlayerBlocked env.now s).2).2 with
            processing := true } with
        state :=
          { (tryBody cfg env
              { (checkRateLimits cfg env.now (isPlayerBlocked env.now s).2).2 with
                processing := true }).state with
            processing := false } } := by
  obtain ⟨⟨hms, hlvm, hpr, hdv, hdb, hlcm, hlem⟩, hbu⟩ := isPlayerBlocked_snd_fields env.now s
  obtain ⟨⟨hbu2, hlvm2, hpr2, hdv2, hdb2, hlcm2, hlem2⟩, hms2⟩ :=
    checkRateLimits_snd_fields cfg env.now (isPlayerBlocked env.now s).2
  have hB : (isPlayerBlocked env.now s).1 = false := by
    rw [isPlayerBlocked_fst_gate cfg env s]; exact hTB
  have hr1 : (checkRateLimits cfg env.now (isPlayerBlocked env.now s).2).1 = true := by
    rw [checkRateLimits_fst_gate cfg env s _ hms, hRL]; rfl
  have hprS : (checkRateLimits cfg env.now (isPlayerBlocked env.now s).2).2.processing = false := by
    rw [hpr2, hpr]; exact hPR
  have hcdS : ¬(env.now -
      (checkRateLimits cfg env.now (isPlayerBlocked env.now s).2).2.lastVeinMine <
        cfg.cooldownMs) := by
    rw [hlvm2, hlvm]
    have := hCD
    rw [gateActive_cooldown] at this
    exact of_decide_eq_false this
  simp only [onBlockBreak]
  rw [if_neg (show ¬(env.preCancelled = true) by simp [hpc]),
    if_neg (show ¬((isPlayerBlocked env.now s).1 = true) by simp [hB])]
  simp only [afterBlockCheck]
  rw [if_neg (show ¬¬(env.hasUsePermission = true) by simp [hperm]),
    if_neg (show ¬(env.toggledOff = true) by simp [htog]),
    if_neg (show ¬¬((checkRateLimits cfg env.now (isPlayerBlocked env.now s).2).1 = true)
      by simp [hr1])]
  simp only [afterRateCheck]
  rw [if_neg (show ¬((checkRateLimits cfg env.now (isPlayerBlocked env.now s).2).2.processing
      = true) by simp [hprS]),
    if_neg hcdS,
    if_neg (show ¬(env.worldDisabled = true) by simp [hwd]),
    if_neg (show ¬¬(activationOk cfg env = true) by simp [hact]),
    if_neg (show ¬¬(env.blockVeinable = true) by simp [hbv]),
    if_neg hbp]

/-- C10: when the discovered vein is non-empty but below the configured
minimum vein size, the handler changes nothing observable: the event is
not cancelled, processing never runs, no usage or statistics are recorded,
the cooldown timestamp and daily counters are unchanged, and no timestamp
is appended to the rate window (at most the stale entries are pruned). -/
theorem below_min_size_frame (cfg : GateConfig) (env : BreakEnv) (s : PlayerState)
    (hpc : env.preCancelled = false)
    (hperm : env.hasUsePermission = true)
    (htog : env.toggledOff = false)
    (hTB : gateConditionActive cfg env s .tempBlock = false)
    (hRL : gateConditionActive cfg env s .rateLimit = false)
    (hPR : s.processing = false)
    (hCD : gateConditionActive cfg env s .cooldown = false)
    (hwd : env.worldDisabled = false)
    (hact : activationOk cfg env = true)
    (hbv : env.blockVeinable = true)
    (hbp : ¬(cfg.perBlockPermissions ∧ ¬env.blockPermOk))
    (htf : env.toolFetchThrows = false)
    (htool : ¬(cfg.requireCorrectTool ∧ ¬env.properTool))
    (hnz : 0 < env.veinSize)
    (hlt : env.veinSize < cfg.minVeinSize) :
    (onBlockBreak cfg env s).outcome = .belowMinSize ∧
    (onBlockBreak cfg env s).cancelled = false ∧
    (onBlockBreak cfg env s).processCalled = false ∧
    (onBlockBreak cfg env s).usageRecorded = false ∧
    (onBlockBreak cfg env s).statsRecorded = false ∧
    (onBlockBreak cfg env s).state.lastVeinMine = s.lastVeinMine ∧
    (onBlockBreak cfg env s).state.dailyVeinCount = s.dailyVeinCount ∧
    (onBlockBreak cfg env s).state.dailyBlockCount = s.dailyBlockCount ∧
    ((onBlockBreak cfg env s).state.minuteStamps = s.minuteStamps ∨
     (onBlockBreak cfg env s).state.minuteStamps =
       s.minuteStamps.filter fun t => env.now - t < 60000) := by
  obtain ⟨⟨hms, hlvm, hpr, hdv, hdb, hlcm, hlem⟩, hbu⟩ := isPlayerBlocked_snd_fields env.now s
  obtain ⟨⟨hbu2, hlvm2, hpr2, hdv2, hdb2, hlcm2, hlem2⟩, hms2⟩ :=
    checkRateLimits_snd_fields cfg env.now (isPlayerBlocked env.now s).2
  have hpass := onBlockBreak_pass cfg env s hpc hperm htog hTB hRL hPR hCD hwd hact hbv hbp
  have hbody : tryBody cfg env
      { (checkRateLimits cfg env.now (isPlayerBlocked env.now s).2).2 with
        processing := true } =
      rejectResult .belowMinSize
        { (checkRateLimits cfg env.now (isPlayerBlocked env.now s).2).2 with
          processing := true } := by
    unfold tryBody
    rw [if_neg (show ¬(env.toolFetchThrows = true) by simp [htf]), if_neg htool,
      if_neg (show ¬(env.veinSize = 0) by omega),
      if_neg (show ¬(cfg.minVeinSize ≤ env.veinSize) by omega)]
  rw [hpass, hbody]
  refine ⟨rfl, rfl, rfl, rfl, rfl, ?_, ?_, ?_, ?_⟩
  · simpa [rejectResult] using hlvm2.trans hlvm
  · simpa [rejectResult] using hdv2.trans hdv
  · simpa [rejectResult] using hdb2.trans hdb
  · rcases hms2 with h | h
    · left; simpa [rejectResult] using h.trans hms
    · right; simpa [rejectResult] using h.trans (by rw [hms])

/-- A configuration whose gate checks all pass for the fixture inputs:
cooldown 100 ms, 60 veins per minute, 5 minute temporary blocks, limits
enabled with generous daily quotas, minimum vein size 2, maximum 64. -/
def cfgA : GateConfig := ⟨100, 60, 5, true, 1000, 10000, 2, 64, true, false, .always⟩

/-- Fixture invocation inputs: time 100000 ms, all host-side checks pass,
a vein of 6 blocks, 6 successful breaks, no injected exceptions. -/
def envA : BreakEnv :=
  ⟨100000, 100001, 100002, 100003, false, true, false, false, false, true, true, true,
    6, 6, false, false⟩

/-- Fixture player state: fresh player, no block, no stamps, no cooldown. -/
def stA : PlayerState := ⟨none, [], 0, false, 0, 0, 0, 0⟩

/-- Witness for C1 at a concrete passing input: both sides evaluate to
none (no check rejects). -/
theorem gate_check_order_witness :
    outcomeCheck (onBlockBreak cfgA envA stA).outcome = codeFirstReject cfgA envA stA :=
  gate_check_order cfgA envA stA rfl rfl rfl rfl rfl rfl (by decide) rfl (by decide)
    (by decide) (by decide) (by decide)

/-- Configuration for the C1 counterexample: cooldown 1000 ms and one
vein per minute, so a player can be simultaneously on cooldown and over
the rate limit. -/
def cfgC1ce : GateConfig := ⟨1000, 1, 5, false, 1000, 10000, 2, 64, false, false, .always⟩

/-- Player state for the C1 counterexample: one stamp 1 ms old and a last
mine 2 ms ago, so both the cooldown and the rate-limit conditions hold. -/
def stC1ce : PlayerState := ⟨none, [99999], 99998, false, 0, 0, 0, 0⟩

/-- Counterexample to C1 as stated: at a state that is simultaneously on
cooldown and over the rate limit, the claimed order would reject on the
cooldown check (and so would never escalate), but the code rejects on the
rate limit and sets the temporary block. -/
theorem gate_check_order_counterexample :
    (onBlockBreak cfgC1ce envA stC1ce).outcome = .rejectedRateLimit ∧
    claimedFirstReject cfgC1ce envA stC1ce = some .cooldown ∧
    (onBlockBreak cfgC1ce envA stC1ce).state.blockedUntil =
      some (100000 + 5 * 60 * 1000) := by
  decide

/-- Configuration for the C4 counterexample: max-per-minute 0. -/
def cfgC4ce : GateConfig := ⟨100, 0, 5, false, 1000, 10000, 2, 64, false, false, .always⟩

/-- Counterexample to C4 as stated: with max-per-minute configured to 0,
the recorded-stamp count 0 is at least the configured max-per-minute, yet
the next operation is not rejected (the limiter is disabled for
nonpositive values) and no temporary block is set. -/
theorem rate_limit_escalation_counterexample :
    cfgC4ce.maxVeinsPerMinute ≤
      ((stA.minuteStamps.filter fun t => envA.now - t < 60000).length : Int) ∧
    (onBlockBreak cfgC4ce envA stA).outcome = .processed ∧
    (onBlockBreak cfgC4ce envA stA).state.blockedUntil = none := by
  decide

/-- Configuration for the C4 witness: max-per-minute 60. -/
def cfgC4w : GateConfig := ⟨100, 60, 5, false, 1000, 10000, 2, 64, false, false, .always⟩

/-- Player state for the C4 witness: 60 recorded operations 1000 ms ago,
all inside the rolling window. -/
def stC4w : PlayerState := ⟨none, List.replicate 60 99000, 0, false, 0, 0, 0, 0⟩

/-- Witness for C4 at the specification scenario: with max-per-minute 60
and 60 recorded operations inside 60 seconds, the 61st operation is
rejected by the rate limit and the player is temporarily blocked for the
configured 5 minutes. -/
theorem rate_limit_escalation_witness :
    (onBlockBreak cfgC4w envA stC4w).outcome = .rejectedRateLimit ∧
    (onBlockBreak cfgC4w envA stC4w).state.blockedUntil =
      some (envA.now + cfgC4w.temporaryBlockDuration * 60 * 1000) :=
  (rate_limit_escalation cfgC4w envA stC4w).1 ⟨rfl, rfl, rfl, by decide, by decide⟩

/-- Witness for C5 at a concrete input that reaches the try body: the
processing flag is clear in the returned state. -/
theorem processing_flag_released_witness :
    (onBlockBreak cfgA envA stA).state.processing = false :=
  processing_flag_released cfgA envA stA (by decide)

/-- Invocation inputs for the C10 witness: a discovered vein of one block
against a minimum vein size of 2. -/
def envC10w : BreakEnv :=
  ⟨100000, 100001, 100002, 100003, false, true, false, false, false, true, true, true,
    1, 0, false, false⟩

/-- Witness for C10 at a concrete input: a one-block vein below the
minimum size of 2 leaves every listed observable unchanged. -/
theorem below_min_size_frame_witness :
    (onBlockBreak cfgA envC10w stA).outcome = .belowMinSize ∧
    (onBlockBreak cfgA envC10w stA).cancelled = false ∧
    (onBlockBreak cfgA envC10w stA).processCalled = false ∧
    (onBlockBreak cfgA envC10w stA).usageRecorded = false ∧
    (onBlockBreak cfgA envC10w stA).statsRecorded = false ∧
    (onBlockBreak cfgA envC10w stA).state.lastVeinMine = stA.lastVeinMine ∧
    (onBlockBreak cfgA envC10w stA).state.dailyVeinCount = stA.dailyVeinCount ∧
    (onBlockBreak cfgA envC10w stA).state.dailyBlockCount = stA.dailyBlockCount ∧
    ((onBlockBreak cfgA envC10w stA).state.minuteStamps = stA.minuteStamps ∨
     (onBlockBreak cfgA envC10w stA).state.minuteStamps =
       stA.minuteStamps.filter fun t => envC10w.now - t < 60000) :=
  below_min_size_frame cfgA envC10w stA rfl rfl rfl rfl rfl rfl rfl rfl rfl rfl
    (by decide) rfl (by decide) (by decide) (by decide)

theorem mem_rangeList (r : Nat) (x : Int) :
    x ∈ rangeList r ↔ -(r : Int) ≤ x ∧ x ≤ (r : Int) := by
  simp only [rangeList, List.mem_map, List.mem_range]
  constructor
  · rintro ⟨i, hi, rfl⟩
    omega
  · rintro ⟨h1, h2⟩
    exact ⟨(x + r).toNat, by omega, by omega⟩

theorem nodup_rangeList (r : Nat) : (rangeList r).Nodup := by
  refine List.Nodup.map ?_ (List.nodup_range _)
  intro a b h
  dsimp only at h
  omega

theorem mem_raw_iff (pat : Pattern) (radius vR hR : Nat) (diag : Bool) (p : Pos) :
    p ∈ buildNeighborOffsetsRaw pat radius vR hR diag ↔
      patternRulePred pat radius vR hR diag p := by
  obtain ⟨px, py, pz⟩ := p
  cases pat with
  | vertical =>
    simp only [buildNeighborOffsetsRaw, patternRulePred, List.mem_filterMap, mem_rangeList]
    constructor
    · rintro ⟨dy, hdy, hsome⟩
      split_ifs at hsome with h
      cases hsome
      exact ⟨rfl, rfl, h, hdy.1, hdy.2⟩
    · rintro ⟨hx, hz, hy, h1, h2⟩
      subst hx; subst hz
      exact ⟨py, ⟨h1, h2⟩, by rw [if_neg hy]⟩
  | horizontal =>
    simp only [buildNeighborOffsetsRaw, patternRulePred, List.mem_flatMap,
      List.mem_filterMap, mem_rangeList]
    constructor
    · rintro ⟨dx, hdx, dz, hdz, hsome⟩
      split_ifs at hsome with h1 h2
      cases hsome
      push_neg at h2
      exact ⟨rfl, by tauto, hdx.1, hdx.2, hdz.1, hdz.2, fun hd => h2 hd⟩
    · rintro ⟨hy, hnz, h1, h2, h3, h4, hd⟩
      refine ⟨px, ⟨h1, h2⟩, pz, ⟨h3, h4⟩, ?_⟩
      rw [if_neg (by tauto), if_neg ?_]
      · subst hy; rfl
      · rintro ⟨hdneg, habs⟩
        exact habs (hd (by simpa using hdneg))
  | cube =>
    simp only [buildNeighborOffsetsRaw, patternRulePred, List.mem_flatMap,
      List.mem_filterMap, mem_rangeList]
    constructor
    · rintro ⟨dx, hdx, dy, hdy, dz, hdz, hsome⟩
      split_ifs at hsome with h
      cases hsome
      exact ⟨h, hdx.1, hdx.2, hdy.1, hdy.2, hdz.1, hdz.2⟩
    · rintro ⟨hnz, h1, h2, h3, h4, h5, h6⟩
      exact ⟨px, ⟨h1, h2⟩, py, ⟨h3, h4⟩, pz, ⟨h5, h6⟩, by rw [if_neg hnz]⟩
  | sphere =>
    simp only [buildNeighborOffsetsRaw, patternRulePred, List.mem_flatMap,
      List.mem_filterMap, mem_rangeList]
    constructor
    · rintro ⟨dx, hdx, dy, hdy, dz, hdz, hsome⟩
      split_ifs at hsome with h1 h2
      cases hsome
      exact ⟨h1, hdx.1, hdx.2, hdy.1, hdy.2, hdz.1, hdz.2, h2⟩
    · rintro ⟨hnz, h1, h2, h3, h4, h5, h6, hs⟩
      exact ⟨px, ⟨h1, h2⟩, py, ⟨h3, h4⟩, pz, ⟨h5, h6⟩, by rw [if_neg hnz, if_pos hs]⟩
  | adjacent =>
    simp only [buildNeighborOffsetsRaw, patternRulePred, List.mem_flatMap,
      List.mem_filterMap, mem_rangeList]
    constructor
    · rintro ⟨dx, hdx, dy, hdy, dz, hdz, hsome⟩
      split_ifs at hsome with h1 h2
      cases hsome
      push_neg at h2
      exact ⟨h1, by omega, by omega, by omega, by omega, by omega, by omega, fun hd => h2 hd⟩
    · rintro ⟨hnz, h1, h2, h3, h4, h5, h6, hd⟩
      refine ⟨px, ⟨by omega, by omega⟩, py, ⟨by omega, by omega⟩,
        pz, ⟨by omega, by omega⟩, ?_⟩
      rw [if_neg hnz, if_neg ?_]
      · rintro ⟨hdneg, habs⟩
        exact habs (hd (by simpa using hdneg))

theorem nodup_flatMap_inj {α β : Type} (l : List α) (f : α → List β)
    (hl : l.Nodup) (h1 : ∀ x ∈ l, (f x).Nodup)
    (h2 : ∀ x1 ∈ l, ∀ x2 ∈ l, ∀ y, y ∈ f x1 → y ∈ f x2 → x1 = x2) :
    (l.flatMap f).Nodup := by
  induction l with
  | nil => simp
  | cons a l ih =>
    simp only [List.flatMap_cons]
    rw [List.nodup_append]
    rcases List.nodup_cons.mp hl with ⟨ha, hl2⟩
    refine ⟨h1 a (List.mem_cons_self a l),
      ih hl2 (fun x hx => h1 x (List.mem_cons_of_mem _ hx))
        (fun x1 hx1 x2 hx2 y hy1 hy2 =>
          h2 x1 (List.mem_cons_of_mem _ hx1) x2 (List.mem_cons_of_mem _ hx2) y hy1 hy2), ?_⟩
    intro y hy hyR
    rcases List.mem_flatMap.mp hyR with ⟨x, hx, hyx⟩
    have hax := h2 a (List.mem_cons_self a l) x (List.mem_cons_of_mem _ hx) y hy hyx
    subst hax
    exact ha hx

theorem nodup_raw (pat : Pattern) (radius vR hR : Nat) (diag : Bool) :
    (buildNeighborOffsetsRaw pat radius vR hR diag).Nodup := by
  cases pat with
  | vertical =>
    refine List.Nodup.filterMap ?_ (nodup_rangeList _)
    intro a b c hc1 hc2
    rw [Option.mem_def] at hc1 hc2
    split_ifs at hc1 hc2
    cases hc1
    simp [Pos.mk.injEq] at hc2
    omega
  | horizontal =>
    refine nodup_flatMap_inj _ _ (nodup_rangeList _) ?_ ?_
    · intro dx _
      refine List.Nodup.filterMap ?_ (nodup_rangeList _)
      intro a b c hc1 hc2
      rw [Option.mem_def] at hc1 hc2
      split_ifs at hc1 hc2
      cases hc1
      simp [Pos.mk.injEq] at hc2
      omega
    · intro x1 _ x2 _ y hy1 hy2
      rcases List.mem_filterMap.mp hy1 with ⟨dz1, _, hz1⟩
      rcases List.mem_filterMap.mp hy2 with ⟨dz2, _, hz2⟩
      split_ifs at hz1
      split_ifs at hz2
      cases hz1
      simp [Pos.mk.injEq] at hz2
      omega
  | cube =>
    refine nodup_flatMap_inj _ _ (nodup_rangeList _) ?_ ?_
    · intro dx _
      refine nodup_flatMap_inj _ _ (nodup_rangeList _) ?_ ?_
      · intro dy _
        refine List.Nodup.filterMap ?_ (nodup_rangeList _)
        intro a b c hc1 hc2
        rw [Option.mem_def] at hc1 hc2
        split_ifs at hc1 hc2
        cases hc1
        simp [Pos.mk.injEq] at hc2
        omega
      · intro y1 _ y2 _ y hy1 hy2
        rcases List.mem_filterMap.mp hy1 with ⟨dz1, _, hz1⟩
        rcases List.mem_filterMap.mp hy2 with ⟨dz2, _, hz2⟩
        split_ifs at hz1
        split_ifs at hz2
        cases hz1
        simp [Pos.mk.injEq] at hz2
        omega
    · intro x1 _ x2 _ y hy1 hy2
      rcases List.mem_flatMap.mp hy1 with ⟨dy1, _, hm1⟩
      rcases List.mem_flatMap.mp hy2 with ⟨dy2, _, hm2⟩
      rcases List.mem_filterMap.mp hm1 with ⟨dz1, _, hz1⟩
      rcases List.mem_filterMap.mp hm2 with ⟨dz2, _, hz2⟩
      split_ifs at hz1
      split_ifs at hz2
      cases hz1
      simp [Pos.mk.injEq] at hz2
      omega
  | sphere =>
    refine nodup_flatMap_inj _ _ (nodup_rangeList _) ?_ ?_
    · intro dx _
      refine nodup_flatMap_inj _ _ (nodup_rangeList _) ?_ ?_
      · intro dy _
        refine List.Nodup.filterMap ?_ (nodup_rangeList _)
        intro a b c hc1 hc2
        rw [Option.mem_def] at hc1 hc2
        split_ifs at hc1 hc2
        cases hc1
        simp [Pos.mk.injEq] at hc2
        omega
      · intro y1 _ y2 _ y hy1 hy2
        rcases List.mem_filterMap.mp hy1 with ⟨dz1, _, hz1⟩
        rcases List.mem_filterMap.mp hy2 with ⟨dz2, _, hz2⟩
        split_ifs at hz1
        split_ifs at hz2
        cases hz1
        simp [Pos.mk.injEq] at hz2
        omega
    · intro x1 _ x2 _ y hy1 hy2
      rcases List.mem_flatMap.mp hy1 with ⟨dy1, _, hm1⟩
      rcases List.mem_flatMap.mp hy2 with ⟨dy2, _, hm2⟩
      rcases List.mem_filterMap.mp hm1 with ⟨dz1, _, hz1⟩
      rcases List.mem_filterMap.mp hm2 with ⟨dz2, _, hz2⟩
      split_ifs at hz1
      split_ifs at hz2
      cases hz1
      simp [Pos.mk.injEq] at hz2
      omega
  | adjacent =>
    refine nodup_flatMap_inj _ _ (nodup_rangeList _) ?_ ?_
    · intro dx _
      refine nodup_flatMap_inj _ _ (nodup_rangeList _) ?_ ?_
      · intro dy _
        refine List.Nodup.filterMap ?_ (nodup_rangeList _)
        intro a b c hc1 hc2
        rw [Option.mem_def] at hc1 hc2
        split_ifs at hc1 hc2
        cases hc1
        simp [Pos.mk.injEq] at hc2
        omega
      · intro y1 _ y2 _ y hy1 hy2
        rcases List.mem_filterMap.mp hy1 with ⟨dz1, _, hz1⟩
        rcases List.mem_filterMap.mp hy2 with ⟨dz2, _, hz2⟩
        split_ifs at hz1
        split_ifs at hz2
        cases hz1
        simp [Pos.mk.injEq] at hz2
        omega
    · intro x1 _ x2 _ y hy1 hy2
      rcases List.mem_flatMap.mp hy1 with ⟨dy1, _, hm1⟩
      rcases List.mem_flatMap.mp hy2 with ⟨dy2, _, hm2⟩
      rcases List.mem_filterMap.mp hm1 with ⟨dz1, _, hz1⟩
      rcases List.mem_filterMap.mp hm2 with ⟨dz2, _, hz2⟩
      split_ifs at hz1
      split_ifs at hz2
      cases hz1
      simp [Pos.mk.injEq] at hz2
      omega

/-- C8 (amended): for every valid configuration the neighbor pattern
builder's output has no zero offset, no duplicates and at most 512
entries, and it equals the first 512 entries of the per-pattern rule list
in the fixed nested-loop order; the uncapped list contains exactly the
offsets selected by the per-pattern rule (so whenever the rule keeps at
most 512 offsets the output is exactly the rule set). -/
theorem build_neighbor_offsets_spec (pat : Pattern) (radius vR hR : Nat) (diag : Bool)
    (hr1 : 1 ≤ radius) (hr2 : radius ≤ 6) (hv1 : 1 ≤ vR) (hv2 : vR ≤ 16)
    (hh1 : 1 ≤ hR) (hh2 : hR ≤ 16) :
    (⟨0, 0, 0⟩ : Pos) ∉ buildNeighborOffsets pat radius vR hR diag ∧
    (buildNeighborOffsets pat radius vR hR diag).Nodup ∧
    (buildNeighborOffsets pat radius vR hR diag).length ≤ 512 ∧
    buildNeighborOffsets pat radius vR hR diag =
      (buildNeighborOffsetsRaw pat radius vR hR diag).take 512 ∧
    (∀ p : Pos, p ∈ buildNeighborOffsetsRaw pat radius vR hR diag ↔
      patternRulePred pat radius vR hR diag p) := by
  have heq : buildNeighborOffsets pat radius vR hR diag =
      (buildNeighborOffsetsRaw pat radius vR hR diag).take 512 := by
    simp only [buildNeighborOffsets]
    split_ifs with h
    · rfl
    · rw [List.take_of_length_le (by omega)]
  have hnd := nodup_raw pat radius vR hR diag
  refine ⟨?_, ?_, ?_, heq, fun p => mem_raw_iff pat radius vR hR diag p⟩
  · rw [heq]
    intro hmem
    have hmem2 := List.take_subset 512 _ hmem
    have hrule := (mem_raw_iff pat radius vR hR diag ⟨0, 0, 0⟩).mp hmem2
    cases pat <;> simp [patternRulePred] at hrule
  · rw [heq]
    exact List.Nodup.sublist (List.take_sublist _ _) hnd
  · rw [heq]
    simp [List.length_take]

set_option maxRecDepth 8000 in
/-- Counterexample to C8 as stated: the horizontal pattern at the valid
range 16 with diagonals keeps 1088 offsets by its rule, so the capped
output of 512 entries cannot contain them all; the rule offset with both
horizontal coordinates 16 is missing from the output. -/
theorem build_neighbor_offsets_counterexample :
    (buildNeighborOffsets .horizontal 1 4 16 true).length = 512 ∧
    patternRulePred .horizontal 1 4 16 true ⟨16, 0, 16⟩ ∧
    (⟨16, 0, 16⟩ : Pos) ∉ buildNeighborOffsets .horizontal 1 4 16 true := by
  decide

/-- Witness for C8 at a concrete valid configuration (adjacent pattern,
no diagonals), with the rule-membership conjunct instantiated at the unit
offset in the x direction. -/
theorem build_neighbor_offsets_spec_witness :
    (⟨0, 0, 0⟩ : Pos) ∉ buildNeighborOffsets .adjacent 1 4 4 false ∧
    (buildNeighborOffsets .adjacent 1 4 4 false).Nodup ∧
    (buildNeighborOffsets .adjacent 1 4 4 false).length ≤ 512 ∧
    buildNeighborOffsets .adjacent 1 4 4 false =
      (buildNeighborOffsetsRaw .adjacent 1 4 4 false).take 512 ∧
    ((⟨1, 0, 0⟩ : Pos) ∈ buildNeighborOffsetsRaw .adjacent 1 4 4 false ↔
      patternRulePred .adjacent 1 4 4 false ⟨1, 0, 0⟩) := by
  obtain ⟨h1, h2, h3, h4, h5⟩ := build_neighbor_offsets_spec .adjacent 1 4 4 false
    (by decide) (by decide) (by decide) (by decide) (by decide) (by decide)
  exact ⟨h1, h2, h3, h4, h5 ⟨1, 0, 0⟩⟩

theorem expandStep_queue_cases (world : World) (cfg : VeinConfig) (t : String) (cur : Pos)
    (acc : List Pos × Finset Pos) (off : Pos) :
    (expandStep world cfg t cur acc off).1 = acc.1 ∨
    ∃ n : Pos, (expandStep world cfg t cur acc off).1 = acc.1 ++ [n] ∧
      cfg.minWorldHeight ≤ n.y ∧ n.y ≤ cfg.maxWorldHeight ∧ world n = some t := by
  unfold expandStep
  split_ifs with h1 h2
  · left; rfl
  · left; rfl
  · rcases hw : world (padd cur off) with _ | ty
    · simp [hw]
    · simp only [hw]
      by_cases hty : ty = t
      · rw [if_pos hty]
        right
        refine ⟨padd cur off, rfl, by omega, by omega, ?_⟩
        rw [hw, hty]
      · rw [if_neg hty]
        left; rfl

theorem expand_fold_queue (world : World) (cfg : VeinConfig) (t : String) (cur : Pos)
    (P : Pos → Prop)
    (hP : ∀ n : Pos, cfg.minWorldHeight ≤ n.y → n.y ≤ cfg.maxWorldHeight → P n) :
    ∀ (L : List Pos) (acc : List Pos × Finset Pos),
      (∀ p ∈ acc.1, P p) →
      ∀ p ∈ (L.foldl (expandStep world cfg t cur) acc).1, P p := by
  intro L
  induction L with
  | nil => exact fun acc hacc p hp => hacc p hp
  | cons off L ih =>
    intro acc hacc p hp
    refine ih (expandStep world cfg t cur acc off) ?_ p hp
    intro q hq
    rcases expandStep_queue_cases world cfg t cur acc off with h | ⟨n, h, hn1, hn2, _⟩
    · exact hacc q (h ▸ hq)
    · rw [h] at hq
      rcases List.mem_append.mp hq with hq | hq
      · exact hacc q hq
      · rcases List.mem_singleton.mp hq with rfl
        exact hP q hn1 hn2

theorem findVeinLoop_inv (world : World) (cfg : VeinConfig) (t : String) (start : Pos) :
    ∀ (fuel : Nat) (queue : List Pos) (visited vein : Finset Pos),
      vein.card ≤ cfg.maxBlocks →
      (∀ p ∈ vein, distSq start p ≤ cfg.maxReachDistance * cfg.maxReachDistance ∧
        (p ≠ start → cfg.minWorldHeight ≤ p.y ∧ p.y ≤ cfg.maxWorldHeight)) →
      (∀ p ∈ queue, p = start ∨ (cfg.minWorldHeight ≤ p.y ∧ p.y ≤ cfg.maxWorldHeight)) →
      (findVeinLoop world cfg t start fuel queue visited vein).card ≤ cfg.maxBlocks ∧
      (∀ p ∈ findVeinLoop world cfg t start fuel queue visited vein,
        distSq start p ≤ cfg.maxReachDistance * cfg.maxReachDistance ∧
        (p ≠ start → cfg.minWorldHeight ≤ p.y ∧ p.y ≤ cfg.maxWorldHeight)) := by
  intro fuel
  induction fuel with
  | zero =>
    intro queue visited vein h1 h2 h3
    cases queue with
    | nil => exact ⟨h1, h2⟩
    | cons cur rest =>
      simp only [findVeinLoop]
      split_ifs <;> exact ⟨h1, h2⟩
  | succ fuel ih =>
    intro queue visited vein h1 h2 h3
    cases queue with
    | nil => exact ⟨h1, h2⟩
    | cons cur rest =>
      simp only [findVeinLoop]
      by_cases hcard : vein.card < cfg.maxBlocks
      swap
      · rw [if_neg hcard]; exact ⟨h1, h2⟩
      rw [if_pos hcard]
      by_cases hdist : cfg.maxReachDistance * cfg.maxReachDistance < distSq start cur
      · rw [if_pos hdist]
        exact ih rest visited vein h1 h2 (fun p hp => h3 p (List.mem_cons_of_mem _ hp))
      rw [if_neg hdist]
      rcases hw : world cur with _ | ty
      · simp only [hw]
        exact ih rest visited vein h1 h2 (fun p hp => h3 p (List.mem_cons_of_mem _ hp))
      simp only [hw]
      by_cases hty : ty = t
      swap
      · rw [if_neg hty]
        exact ih rest visited vein h1 h2 (fun p hp => h3 p (List.mem_cons_of_mem _ hp))
      rw [if_pos hty]
      have hcur : distSq start cur ≤ cfg.maxReachDistance * cfg.maxReachDistance ∧
          (cur ≠ start → cfg.minWorldHeight ≤ cur.y ∧ cur.y ≤ cfg.maxWorldHeight) := by
        refine ⟨not_lt.mp hdist, fun hne => ?_⟩
        rcases h3 cur (List.mem_cons_self _ _) with h | h
        · exact absurd h hne
        · exact h
      have hmem : ∀ p ∈ insert cur vein,
          distSq start p ≤ cfg.maxReachDistance * cfg.maxReachDistance ∧
          (p ≠ start → cfg.minWorldHeight ≤ p.y ∧ p.y ≤ cfg.maxWorldHeight) := by
        intro p hp
        rcases Finset.mem_insert.mp hp with rfl | hp
        · exact hcur
        · exact h2 p hp
      have hcardIns : (insert cur vein).card ≤ cfg.maxBlocks := by
        have := Finset.card_insert_le cur vein
        omega
      by_cases hstop : cfg.maxBlocks ≤ (insert cur vein).card
      · rw [if_pos hstop]
        exact ⟨hcardIns, hmem⟩
      · rw [if_neg hstop]
        refine ih _ _ _ hcardIns hmem ?_
        exact expand_fold_queue world cfg t cur _ (fun n ha hb => Or.inr ⟨ha, hb⟩)
          cfg.neighbors (rest, visited)
          (fun q hq => h3 q (List.mem_cons_of_mem _ hq))

/-- C2 (amended): every vein returned by find_vein has at most the
configured maximum number of members, every member lies within the
configured maximum reach distance of the start (squared Euclidean), and
every member other than the start lies within the world vertical bounds;
the start block itself is never height-checked. -/
theorem find_vein_bounds (world : World) (cfg : VeinConfig) (start : Pos) :
    (find_vein world cfg start).card ≤ cfg.maxBlocks ∧
    ∀ p ∈ find_vein world cfg start,
      distSq start p ≤ cfg.maxReachDistance * cfg.maxReachDistance ∧
      (p ≠ start → cfg.minWorldHeight ≤ p.y ∧ p.y ≤ cfg.maxWorldHeight) := by
  unfold find_vein
  rcases hw : world start with _ | t
  · simp
  · refine findVeinLoop_inv world cfg t start _ [start] {start} ∅ (by simp) (by simp) ?_
    intro p hp
    rcases List.mem_singleton.mp hp with rfl
    left; rfl

/-- The six face-adjacent offsets, as the neighbor builder produces for
the adjacent pattern without diagonals. -/
def adj6 : List Pos := buildNeighborOffsets .adjacent 1 4 4 false

/-- A find_vein configuration with realistic values: maximum 64 blocks,
reach 100, world height -64..320, face adjacency. -/
def cfgV : VeinConfig := ⟨64, 100, -64, 320, adj6⟩

/-- A world holding a single ore block far above the world height cap. -/
def worldHigh : World := fun p =>
  if p = ⟨0, 1000, 0⟩ then some "minecraft:iron_ore" else none

/-- Counterexample to C2 as stated: starting on a block at height 1000,
far above the maximum world height 320, find_vein returns a vein whose
only member (the start block itself) violates the vertical bounds — the
start position is never height-checked. -/
theorem find_vein_height_counterexample :
    find_vein worldHigh cfgV ⟨0, 1000, 0⟩ = {⟨0, 1000, 0⟩} ∧
    cfgV.maxWorldHeight < (1000 : Int) := by
  decide

/-- A world holding two vertically adjacent ore blocks. -/
def worldPair : World := fun p =>
  if p = ⟨0, 0, 0⟩ ∨ p = ⟨0, 1, 0⟩ then some "minecraft:iron_ore" else none

/-- Witness for C2 at a concrete two-block world: the cardinality bound
holds and the non-start member satisfies the reach and height bounds. -/
theorem find_vein_bounds_witness :
    (find_vein worldPair cfgV ⟨0, 0, 0⟩).card ≤ cfgV.maxBlocks ∧
    distSq ⟨0, 0, 0⟩ ⟨0, 1, 0⟩ ≤ cfgV.maxReachDistance * cfgV.maxReachDistance ∧
    cfgV.minWorldHeight ≤ (1 : Int) ∧ (1 : Int) ≤ cfgV.maxWorldHeight :=
  ⟨(find_vein_bounds worldPair cfgV ⟨0, 0, 0⟩).1,
   ((find_vein_bounds worldPair cfgV ⟨0, 0, 0⟩).2 ⟨0, 1, 0⟩ (by decide)).1,
   ((find_vein_bounds worldPair cfgV ⟨0, 0, 0⟩).2 ⟨0, 1, 0⟩ (by decide)).2 (by decide)⟩

theorem reaches_subset_closed (world : World) (cfg : VeinConfig) (t : String) (start : Pos)
    (S : Finset Pos) (hstS : start ∈ S) (hclosed : closedUnder world cfg t S) :
    ∀ p, Reaches world cfg t start p → p ∈ S := by
  intro p h
  induction h with
  | refl => exact hstS
  | step hp hstep ih =>
    rcases hstep with ⟨off, hoff, rfl, hh, hw⟩
    exact hclosed _ ih off hoff hh hw

/-- Invariant of the find_vein BFS loop, relative to a target component S. -/
structure VeinLoopInv (world : World) (cfg : VeinConfig) (t : String) (start : Pos)
    (S : Finset Pos) (fuel : Nat) (queue : List Pos) (visited vein : Finset Pos) : Prop where
  veinS : vein ⊆ S
  queueS : ∀ p ∈ queue, p ∈ S
  queueND : queue.Nodup
  queueVis : ∀ p ∈ queue, p ∈ visited
  veinVis : vein ⊆ visited
  queueNotVein : ∀ p ∈ queue, p ∉ vein
  interEq : visited ∩ S = vein ∪ queue.toFinset
  expanded : ∀ p ∈ vein, ∀ off ∈ cfg.neighbors,
    heightOk cfg (padd p off) → padd p off ∈ visited
  startVis : start ∈ visited
  fuelOk : queue.length + S.card ≤ fuel + (visited ∩ S).card

theorem expandStep_cases (world : World) (cfg : VeinConfig) (t : String) (cur : Pos)
    (acc : List Pos × Finset Pos) (off : Pos) :
    (expandStep world cfg t cur acc off = acc ∧
       (¬heightOk cfg (padd cur off) ∨ padd cur off ∈ acc.2)) ∨
    (heightOk cfg (padd cur off) ∧ padd cur off ∉ acc.2 ∧
       world (padd cur off) = some t ∧
       expandStep world cfg t cur acc off =
         (acc.1 ++ [padd cur off], insert (padd cur off) acc.2)) ∨
    (heightOk cfg (padd cur off) ∧ padd cur off ∉ acc.2 ∧
       ¬(world (padd cur off) = some t) ∧
       expandStep world cfg t cur acc off = (acc.1, insert (padd cur off) acc.2)) := by
  unfold expandStep heightOk
  split_ifs with h1 h2
  · left
    exact ⟨rfl, Or.inl (by omega)⟩
  · left
    exact ⟨rfl, Or.inr h2⟩
  · rcases hw : world (padd cur off) with _ | ty
    · right; right
      refine ⟨by omega, h2, by simp [hw], by simp⟩
    · by_cases hty : ty = t
      · right; left
        refine ⟨by omega, h2, by rw [hty], by simp [hty]⟩
      · right; right
        refine ⟨by omega, h2, ?_, by simp [hty]⟩
        intro h
        exact hty (Option.some.inj h)

/-- Invariant of the neighbor-expansion fold inside one BFS step. -/
structure FoldInv (S : Finset Pos) (visited0 : Finset Pos) (veinP : Finset Pos) (B : Nat)
    (acc : List Pos × Finset Pos) : Prop where
  q1 : ∀ p ∈ acc.1, p ∈ S
  q2 : acc.1.Nodup
  q3 : ∀ p ∈ acc.1, p ∈ acc.2
  q4 : visited0 ⊆ acc.2
  q5 : ∀ p ∈ acc.1, p ∉ veinP
  q6 : acc.2 ∩ S = veinP ∪ acc.1.toFinset
  q7 : acc.1.length + S.card ≤ B + (acc.2 ∩ S).card

theorem foldInv_step (world : World) (cfg : VeinConfig) (t : String) (S : Finset Pos)
    (visited0 veinP : Finset Pos) (B : Nat) (cur off : Pos)
    (hcurS : cur ∈ S) (hoff : off ∈ cfg.neighbors)
    (hclosed : closedUnder world cfg t S)
    (hSty : ∀ p ∈ S, world p = some t)
    (hveinP : veinP ⊆ visited0)
    (acc : List Pos × Finset Pos) (h : FoldInv S visited0 veinP B acc) :
    FoldInv S visited0 veinP B (expandStep world cfg t cur acc off) ∧
    acc.2 ⊆ (expandStep world cfg t cur acc off).2 ∧
    (heightOk cfg (padd cur off) → padd cur off ∈ (expandStep world cfg t cur acc off).2) := by
  rcases expandStep_cases world cfg t cur acc off with
    ⟨heq, hside⟩ | ⟨hh, hnv, hw, heq⟩ | ⟨hh, hnv, hw, heq⟩
  · rw [heq]
    refine ⟨h, Finset.Subset.refl _, fun hhh => ?_⟩
    rcases hside with hside | hside
    · exact absurd hhh hside
    · exact hside
  · -- matching neighbor appended and marked visited
    have hnS : padd cur off ∈ S := hclosed cur hcurS off hoff hh hw
    rw [heq]
    refine ⟨⟨?_, ?_, ?_, ?_, ?_, ?_, ?_⟩, ?_, fun _ => Finset.mem_insert_self _ _⟩
    · intro p hp
      rcases List.mem_append.mp hp with hp | hp
      · exact h.q1 p hp
      · rcases List.mem_singleton.mp hp with rfl
        exact hnS
    · rw [List.nodup_append]
      refine ⟨h.q2, List.nodup_singleton _, fun p hp hp2 => ?_⟩
      rcases List.mem_singleton.mp hp2 with rfl
      exact hnv (h.q3 _ hp)
    · intro p hp
      rcases List.mem_append.mp hp with hp | hp
      · exact Finset.mem_insert_of_mem (h.q3 p hp)
      · rcases List.mem_singleton.mp hp with rfl
        exact Finset.mem_insert_self _ _
    · exact h.q4.trans (Finset.subset_insert _ _)
    · intro p hp
      rcases List.mem_append.mp hp with hp | hp
      · exact h.q5 p hp
      · rcases List.mem_singleton.mp hp with rfl
        exact fun hc => hnv (h.q4 (hveinP hc))
    · rw [Finset.insert_inter_of_mem hnS, h.q6]
      ext x
      simp [List.toFinset_append]
      tauto
    · rw [Finset.insert_inter_of_mem hnS,
        Finset.card_insert_of_not_mem (fun hc => hnv (Finset.mem_inter.mp hc).1)]
      have := h.q7
      simp only [List.length_append, List.length_singleton]
      omega
    · exact Finset.subset_insert _ _
  · -- non-matching neighbor only marked visited
    have hnS : padd cur off ∉ S := fun hc => hw (hSty _ hc)
    rw [heq]
    refine ⟨⟨h.q1, h.q2, ?_, ?_, h.q5, ?_, ?_⟩, ?_, fun _ => Finset.mem_insert_self _ _⟩
    · intro p hp
      exact Finset.mem_insert_of_mem (h.q3 p hp)
    · exact h.q4.trans (Finset.subset_insert _ _)
    · rw [Finset.insert_inter_of_not_mem hnS]
      exact h.q6
    · rw [Finset.insert_inter_of_not_mem hnS]
      exact h.q7
    · exact Finset.subset_insert _ _

theorem foldInv_fold (world : World) (cfg : VeinConfig) (t : String) (S : Finset Pos)
    (visited0 veinP : Finset Pos) (B : Nat) (cur : Pos)
    (hcurS : cur ∈ S)
    (hclosed : closedUnder world cfg t S)
    (hSty : ∀ p ∈ S, world p = some t)
    (hveinP : veinP ⊆ visited0) :
    ∀ (L : List Pos), (∀ off ∈ L, off ∈ cfg.neighbors) →
    ∀ acc, FoldInv S visited0 veinP B acc →
      FoldInv S visited0 veinP B (L.foldl (expandStep world cfg t cur) acc) ∧
      acc.2 ⊆ (L.foldl (expandStep world cfg t cur) acc).2 ∧
      (∀ off ∈ L, heightOk cfg (padd cur off) →
        padd cur off ∈ (L.foldl (expandStep world cfg t cur) acc).2) := by
  intro L
  induction L with
  | nil =>
    intro _ acc h
    exact ⟨h, Finset.Subset.refl _, by simp⟩
  | cons off L ih =>
    intro hL acc h
    have hstep := foldInv_step world cfg t S visited0 veinP B cur off hcurS
      (hL off (List.mem_cons_self _ _)) hclosed hSty hveinP acc h
    have hrest := ih (fun o ho => hL o (List.mem_cons_of_mem _ ho))
      (expandStep world cfg t cur acc off) hstep.1
    refine ⟨hrest.1, hstep.2.1.trans hrest.2.1, ?_⟩
    intro o ho hhh
    rcases List.mem_cons.mp ho with rfl | ho
    · exact hrest.2.1 (hstep.2.2 hhh)
    · exact hrest.2.2 o ho hhh

theorem veinLoopInv_terminal (world : World) (cfg : VeinConfig) (t : String) (start : Pos)
    (S : Finset Pos) (hstS : start ∈ S) (hclosed : closedUnder world cfg t S)
    (hreach : ∀ p ∈ S, Reaches world cfg t start p)
    (fuel : Nat) (visited vein : Finset Pos)
    (inv : VeinLoopInv world cfg t start S fuel [] visited vein) :
    vein = S := by
  refine Finset.Subset.antisymm inv.veinS ?_
  intro p hpS
  have hkey : ∀ q, Reaches world cfg t start q → q ∈ S → q ∈ vein := by
    intro q hq
    induction hq with
    | refl =>
      intro _
      have hx : start ∈ visited ∩ S := Finset.mem_inter.mpr ⟨inv.startVis, hstS⟩
      rw [inv.interEq] at hx
      simpa using hx
    | step hp2 hstep ih =>
      intro hqS
      rcases hstep with ⟨off, hoff, rfl, hh, hw⟩
      have hpS2 := reaches_subset_closed world cfg t start S hstS hclosed _ hp2
      have hpv := ih hpS2
      have hvis := inv.expanded _ hpv off hoff hh
      have hx := Finset.mem_inter.mpr ⟨hvis, hqS⟩
      rw [inv.interEq] at hx
      simpa using hx
  exact hkey p (hreach p hpS) hpS

theorem findVeinLoop_exact (world : World) (cfg : VeinConfig) (t : String) (start : Pos)
    (S : Finset Pos)
    (hstS : start ∈ S)
    (hSty : ∀ p ∈ S, world p = some t)
    (hclosed : closedUnder world cfg t S)
    (hreach : ∀ p ∈ S, Reaches world cfg t start p)
    (hdist : ∀ p ∈ S, distSq start p ≤ cfg.maxReachDistance * cfg.maxReachDistance)
    (hcard : S.card ≤ cfg.maxBlocks) :
    ∀ (fuel : Nat) (queue : List Pos) (visited vein : Finset Pos),
      VeinLoopInv world cfg t start S fuel queue visited vein →
      findVeinLoop world cfg t start fuel queue visited vein = S := by
  intro fuel
  induction fuel with
  | zero =>
    intro queue visited vein inv
    cases queue with
    | nil => exact veinLoopInv_terminal world cfg t start S hstS hclosed hreach _ _ _ inv
    | cons cur rest =>
      simp only [findVeinLoop]
      by_cases hcd : vein.card < cfg.maxBlocks
      · exfalso
        have h7 := inv.fuelOk
        have hle : (visited ∩ S).card ≤ S.card :=
          Finset.card_le_card Finset.inter_subset_right
        simp only [List.length_cons] at h7
        omega
      · rw [if_neg hcd]
        exact Finset.eq_of_subset_of_card_le inv.veinS (by omega)
  | succ fuel ih =>
    intro queue visited vein inv
    cases queue with
    | nil => exact veinLoopInv_terminal world cfg t start S hstS hclosed hreach _ _ _ inv
    | cons cur rest =>
      simp only [findVeinLoop]
      have hcurS : cur ∈ S := inv.queueS cur (List.mem_cons_self _ _)
      by_cases hcd : vein.card < cfg.maxBlocks
      swap
      · rw [if_neg hcd]
        exact Finset.eq_of_subset_of_card_le inv.veinS (by omega)
      rw [if_pos hcd]
      have hdcur := hdist cur hcurS
      rw [if_neg (by omega)]
      split
      · rename_i hw
        exfalso
        have h2 := (hSty cur hcurS).symm.trans hw
        cases h2
      · rename_i ty hw
        have hty : ty = t := (Option.some.inj ((hSty cur hcurS).symm.trans hw)).symm
        rw [if_pos hty]
        have hsubS : insert cur vein ⊆ S := Finset.insert_subset hcurS inv.veinS
        by_cases hstop : cfg.maxBlocks ≤ (insert cur vein).card
        · rw [if_pos hstop]
          exact Finset.eq_of_subset_of_card_le hsubS (by omega)
        · rw [if_neg hstop]
          have hcvis : cur ∈ visited := inv.queueVis cur (List.mem_cons_self _ _)
          have hveinVis2 : insert cur vein ⊆ visited :=
            Finset.insert_subset hcvis inv.veinVis
          have hcur_notin_rest : cur ∉ rest := (List.nodup_cons.mp inv.queueND).1
          have hrestnd : rest.Nodup := (List.nodup_cons.mp inv.queueND).2
          have finv0 : FoldInv S visited (insert cur vein) fuel (rest, visited) := by
            refine ⟨?_, hrestnd, ?_, Finset.Subset.refl _, ?_, ?_, ?_⟩
            · intro p hp; exact inv.queueS p (List.mem_cons_of_mem _ hp)
            · intro p hp; exact inv.queueVis p (List.mem_cons_of_mem _ hp)
            · intro p hp hin
              rcases Finset.mem_insert.mp hin with rfl | hin
              · exact hcur_notin_rest hp
              · exact inv.queueNotVein p (List.mem_cons_of_mem _ hp) hin
            · rw [inv.interEq]
              ext x
              simp only [Finset.mem_union, Finset.mem_insert, List.mem_toFinset,
                List.mem_cons]
              tauto
            · have h7 := inv.fuelOk
              simp only [List.length_cons] at h7
              show rest.length + S.card ≤ fuel + (visited ∩ S).card
              omega
          have hfold := foldInv_fold world cfg t S visited (insert cur vein) fuel cur hcurS
            hclosed hSty hveinVis2 cfg.neighbors (fun o ho => ho) (rest, visited) finv0
          refine ih _ _ _ ?_
          refine ⟨hsubS, hfold.1.q1, hfold.1.q2, hfold.1.q3,
            hveinVis2.trans hfold.2.1, hfold.1.q5, hfold.1.q6, ?_,
            hfold.2.1 inv.startVis, hfold.1.q7⟩
          intro p hp off hoff hh
          rcases Finset.mem_insert.mp hp with rfl | hp
          · exact hfold.2.2 off hoff hh
          · exact hfold.2.1 (inv.expanded p hp off hoff hh)

/-- C3 (amended): when S is the true connected component of the start
block under the active pattern (closed under same-type height-valid
steps, every member reachable), every member lies within the configured
max reach distance, and S has at most the configured maximum size, vein
discovery returns exactly S: no member is omitted and nothing outside S
is included. -/
theorem find_vein_exact (world : World) (cfg : VeinConfig) (start : Pos) (t : String)
    (S : Finset Pos)
    (hst : world start = some t)
    (hstS : start ∈ S)
    (hSty : ∀ p ∈ S, world p = some t)
    (hclosed : closedUnder world cfg t S)
    (hreach : ∀ p ∈ S, Reaches world cfg t start p)
    (hdist : ∀ p ∈ S, distSq start p ≤ cfg.maxReachDistance * cfg.maxReachDistance)
    (hcard : S.card ≤ cfg.maxBlocks) :
    find_vein world cfg start = S := by
  unfold find_vein
  rw [hst]
  refine findVeinLoop_exact world cfg t start S hstS hSty hclosed hreach hdist hcard _ _ _ _ ?_
  refine ⟨Finset.empty_subset _, ?_, List.nodup_singleton _, ?_, Finset.empty_subset _,
    ?_, ?_, ?_, Finset.mem_singleton_self _, ?_⟩
  · intro p hp
    rcases List.mem_singleton.mp hp with rfl
    exact hstS
  · intro p hp
    rcases List.mem_singleton.mp hp with rfl
    exact Finset.mem_singleton_self _
  · intro p _
    exact Finset.not_mem_empty p
  · ext x
    simp only [Finset.mem_inter, Finset.mem_singleton, Finset.mem_union,
      Finset.not_mem_empty, List.toFinset_cons, List.toFinset_nil, Finset.mem_insert,
      false_or]
    constructor
    · rintro ⟨h, _⟩
      simp [h]
    · rintro (rfl | h)
      · exact ⟨rfl, hstS⟩
      · exact h.elim
  · intro p hp
    cases Finset.not_mem_empty p hp
  · have h1 : ({start} ∩ S : Finset Pos).card = 1 := by
      rw [Finset.singleton_inter_of_mem hstS]
      exact Finset.card_singleton _
    rw [h1]
    have h2 : cfg.maxBlocks * 10 ≤ max 100 (cfg.maxBlocks * 10) := le_max_right _ _
    simp only [List.length_singleton]
    omega

/-- A find_vein configuration with a short reach distance of 2. -/
def cfgShort : VeinConfig := ⟨64, 2, -64, 320, adj6⟩

/-- A world holding a straight line of four ore blocks along the x axis. -/
def worldLine : World := fun p =>
  if p = ⟨0, 0, 0⟩ ∨ p = ⟨1, 0, 0⟩ ∨ p = ⟨2, 0, 0⟩ ∨ p = ⟨3, 0, 0⟩ then
    some "minecraft:iron_ore"
  else none

/-- The four-block line as a finite set. -/
def lineS : Finset Pos := {⟨0, 0, 0⟩, ⟨1, 0, 0⟩, ⟨2, 0, 0⟩, ⟨3, 0, 0⟩}

/-- Counterexample to C3 as stated: the four-block line is the true
connected component of the start (all members reachable, the set closed
under pattern steps, well under the maximum size 64), yet with max reach
distance 2 find_vein omits the reachable member at distance 3 — the claim
fails because the search also prunes by reach distance, which the claim
ignores. -/
theorem find_vein_exact_counterexample :
    worldLine ⟨0, 0, 0⟩ = some "minecraft:iron_ore" ∧
    closedUnder worldLine cfgShort "minecraft:iron_ore" lineS ∧
    Reaches worldLine cfgShort "minecraft:iron_ore" ⟨0, 0, 0⟩ ⟨3, 0, 0⟩ ∧
    lineS.card ≤ cfgShort.maxBlocks ∧
    (⟨3, 0, 0⟩ : Pos) ∈ lineS ∧
    find_vein worldLine cfgShort ⟨0, 0, 0⟩ ≠ lineS ∧
    (⟨3, 0, 0⟩ : Pos) ∉ find_vein worldLine cfgShort ⟨0, 0, 0⟩ := by
  refine ⟨by decide, by decide, ?_, by decide, by decide, by decide, by decide⟩
  have s1 : Reaches worldLine cfgShort "minecraft:iron_ore" ⟨0, 0, 0⟩ ⟨1, 0, 0⟩ :=
    Reaches.step Reaches.refl ⟨⟨1, 0, 0⟩, by decide, by decide, by decide, by decide⟩
  have s2 : Reaches worldLine cfgShort "minecraft:iron_ore" ⟨0, 0, 0⟩ ⟨2, 0, 0⟩ :=
    Reaches.step s1 ⟨⟨1, 0, 0⟩, by decide, by decide, by decide, by decide⟩
  exact Reaches.step s2 ⟨⟨1, 0, 0⟩, by decide, by decide, by decide, by decide⟩

/-- Witness for C3 at the concrete two-block world: the hypotheses hold
and find_vein returns exactly the two-block component. -/
theorem find_vein_exact_witness :
    find_vein worldPair cfgV ⟨0, 0, 0⟩ = {⟨0, 0, 0⟩, ⟨0, 1, 0⟩} :=
  find_vein_exact worldPair cfgV ⟨0, 0, 0⟩ "minecraft:iron_ore" {⟨0, 0, 0⟩, ⟨0, 1, 0⟩}
    (by decide) (by decide) (by decide) (by decide)
    (by
      intro p hp
      have h2 : p = ⟨0, 0, 0⟩ ∨ p = ⟨0, 1, 0⟩ := by simpa using hp
      rcases h2 with rfl | rfl
      · exact Reaches.refl
      · exact Reaches.step Reaches.refl
          ⟨⟨0, 1, 0⟩, by decide, by decide, by decide, by decide⟩)
    (by decide) (by decide)
